import Mathlib

/-!
Verification of the BERGEN LLM context rewriter
(`models/context_processors/llm_rewriter.py`).

The two components `LLMRewriter` and `LLMRewriterWithTitle` are shallowly
embedded below.  The external text-generation collaborator is modelled as an
oracle `Oracle : List String → Except Unit (List String)`: `.error ()` models
an exception raised by `generator.generate`, `.ok outs` a normal return.  Its
mutable `max_new_tokens` field is the single-field state `GenState`, threaded
explicitly.  The collaborator contract (spec §6: one generated string per
prompt, same order) is the predicate `GoodGen`.

Python string primitives that the source uses (`str.strip`, `str.split(sep, 1)`,
`sep.join`) are modelled by structurally recursive functions on `List Char`
(`pyStrip`, `splitFirst`, `joinSep`) so that all definitions evaluate inside
the kernel.  `_process` returns `Option result × GenState × trace`: `none`
models an uncaught exception escaping `_process` (e.g. a list index out of
range), in which case the returned `GenState` is the state at the point the
exception escaped; the trace records, for each call to `generator.generate`,
the `max_new_tokens` value in effect and the chunk of prompts submitted.
-/

namespace MrRag

/-- Characters treated as whitespace by Python `str.strip()` (ASCII part). -/
def isPySpace (c : Char) : Bool :=
  c == ' ' || c == '\t' || c == '\n' || c == '\r' || c == '\x0b' || c == '\x0c'

/-- Python `s.strip()`: remove leading and trailing whitespace. -/
def pyStrip (s : String) : String :=
  String.mk (((s.data.dropWhile isPySpace).reverse.dropWhile isPySpace).reverse)

/-- Python `sep.join(parts)`. -/
def joinSep (sep : String) : List String → String
  | [] => ""
  | [s] => s
  | s :: rest => s ++ sep ++ joinSep sep rest

/-- Does `pat` occur at the head of `l`? -/
def headMatches : List Char → List Char → Bool
  | [], _ => true
  | _ :: _, [] => false
  | a :: as, b :: bs => a == b && headMatches as bs

/-- Split at the first occurrence of `sep` (Python `s.split(sep, 1)` when the
separator occurs): `some (before, after)`, or `none` when `sep` does not occur. -/
def splitFirst (sep : List Char) : List Char → Option (List Char × List Char)
  | [] => none
  | c :: cs =>
    if headMatches sep (c :: cs) then some ([], (c :: cs).drop sep.length)
    else
      match splitFirst sep cs with
      | some (a, b) => some (c :: a, b)
      | none => none

/-- The mutable state of the generation collaborator that `_process` touches:
its `max_new_tokens` setting. -/
structure GenState where
  maxNewTokens : Nat
deriving Repr, DecidableEq

/-- The generation collaborator's batch call `generator.generate(prompts)`:
`.error ()` models a raised exception. -/
abbrev Oracle := List String → Except Unit (List String)

/-- Collaborator contract (spec §6): a normal return carries one generated
string per prompt. -/
def GoodGen (gen : Oracle) : Prop :=
  ∀ ps out, gen ps = Except.ok out → out.length = ps.length

/-- The immutable part of the injected generator used by the constructors. -/
structure Generator where
  model_name : String

/-- Configuration of `LLMRewriter` (its `self` fields; the injected generator
is passed separately as `Oracle`/`GenState`, and the prompt template is
modelled as the built-in default, see `rewritePrompt`). -/
structure Rewriter where
  batch_size : Nat
  max_new_tokens : Nat
  process_separately : Bool
  concatenate_original : Bool
  name : String

/-- Configuration of `LLMRewriterWithTitle` (no `process_separately` option). -/
structure TitleRewriter where
  batch_size : Nat
  max_new_tokens : Nat
  concatenate_original : Bool
  name : String

/-- `LLMRewriter.__init__` (src lines 28-63): it reads
`self.generator.model_name` unconditionally to build `self.name`, so passing
`generator=None` raises `AttributeError`, modelled as `.error ()`. -/
def LLMRewriter.init (generator : Option Generator) (batch_size : Nat)
    (max_new_tokens : Nat) (process_separately : Bool)
    (concatenate_original : Bool) : Except Unit Rewriter :=
  match generator with
  | none => Except.error ()
  | some g =>
      Except.ok
        { batch_size := batch_size
          max_new_tokens := max_new_tokens
          process_separately := process_separately
          concatenate_original := concatenate_original
          name := "llm_rewriter_" ++ g.model_name.replace "/" "_" }

/-- `LLMRewriterWithTitle.__init__` (src lines 203-239): same unconditional
read of `generator.model_name`. -/
def LLMRewriterWithTitle.init (generator : Option Generator) (batch_size : Nat)
    (max_new_tokens : Nat) (concatenate_original : Bool) :
    Except Unit TitleRewriter :=
  match generator with
  | none => Except.error ()
  | some g =>
      Except.ok
        { batch_size := batch_size
          max_new_tokens := max_new_tokens
          concatenate_original := concatenate_original
          name := "llm_rewriter_title_" ++ g.model_name.replace "/" "_" }

/-- The default `rewrite_prompt_template` of `LLMRewriter`, applied to a query
and a passage (Python `self.rewrite_prompt_template.format(query=query,
passage=doc)`). -/
def rewritePrompt (query passage : String) : String :=
  "Given the following query and passage, rewrite the passage to:\n" ++
  "1. Remove redundant information\n" ++
  "2. Highlight information relevant to the query\n" ++
  "3. Integrate any relevant knowledge to make it more coherent\n" ++
  "4. Keep the passage concise and focused\n\nQuery: " ++ query ++
  "\n\nOriginal Passage: " ++ passage ++ "\n\nRewritten Passage:"

/-- The default template of `LLMRewriterWithTitle`, applied to a query, a
title and a content. -/
def rewritePromptTitle (query title content : String) : String :=
  "Given the following query and passage with its title, rewrite ONLY the passage content to:\n" ++
  "1. Remove redundant information\n" ++
  "2. Highlight information relevant to the query\n" ++
  "3. Integrate any relevant knowledge to make it more coherent\n" ++
  "4. Keep the passage concise and focused\n\n" ++
  "Do NOT include the title in your response, only output the rewritten content.\n\nQuery: " ++
  query ++ "\n\nTitle: " ++ title ++ "\n\nOriginal Content: " ++ content ++
  "\n\nRewritten Content:"

/-- Fuel-driven worker for `chunksOf` (structural recursion so that it
evaluates in the kernel; the fuel is an artifact, see `chunksOf_cons`). -/
def chunksOfFuel (b : Nat) : Nat → List α → List (List α)
  | _, [] => []
  | 0, _ => []
  | fuel + 1, l => l.take b :: chunksOfFuel b fuel (l.drop b)

/-- The batching loop `for batch_start in range(0, len(all_prompts),
self.batch_size)` with the slice `all_prompts[batch_start : min(batch_start +
self.batch_size, len(all_prompts))]` (src lines 98-101): the list of
consecutive chunks of size `b`.  Python raises `ValueError` for
`batch_size = 0`; every claim assumes `1 ≤ b`, and the `b = 0` case of this
model is irrelevant to them. -/
def chunksOf (b : Nat) (l : List α) : List (List α) :=
  chunksOfFuel b l.length l

/-- One `try: generated = self.generator.generate(batch_prompts) ... except`
step (src lines 113-119): on an exception, substitute one empty string per
prompt of the batch. -/
def chunkOut (gen : Oracle) (c : List String) : List String :=
  match gen c with
  | Except.ok l => l
  | Except.error _ => List.replicate c.length ""

/-- The generation loop over the batches: concatenates the per-batch outputs
(`rewritten_passages.extend(...)`) and records the trace of collaborator
calls, each with the `max_new_tokens` in effect. -/
def genLoop (gen : Oracle) (st : GenState) : List (List String) →
    List String × List (Nat × List String)
  | [] => ([], [])
  | c :: rest =>
      let r := genLoop gen st rest
      (chunkOut gen c ++ r.1, (st.maxNewTokens, c) :: r.2)

/-- The sentence-segmentation collaborator `nltk.sent_tokenize` (external
library): `.error ()` models a raised exception, `.ok sentences` a normal
return. -/
abbrev SentTok := String → Except Unit (List String)

/-- `LLMRewriterWithTitle._split_title_content` (src lines 240-255): first
sentence of the segmentation as title and `" ".join` of the rest as content;
on zero sentences, empty title and the whole document as content; only when
segmentation raises, fall back to Python `doc.split(". ", 1)` with `"."`
re-appended to the first part. -/
def split_title_content (tok : SentTok) (doc : String) : String × String :=
  match tok doc with
  | Except.ok sentences =>
      match sentences with
      | [] => ("", doc)
      | s :: rest => (s, joinSep " " rest)
  | Except.error _ =>
      match splitFirst ['.', ' '] doc.data with
      | some (a, b) => (String.mk a ++ ".", String.mk b)
      | none => ("", doc)

/-- Inner loop of the prompt-building phase of `LLMRewriter._process` in
separate mode (src lines 87-93): `for doc_idx, doc in enumerate(docs)`,
skipping documents with `len(doc.strip()) == 0`, recording for each kept
document the prompt and its `(query_idx, doc_idx)` pair. -/
def rowPrompts (query : String) (query_idx : Nat) :
    List String → Nat → List (String × Nat × Nat)
  | [], _ => []
  | doc :: ds, doc_idx =>
      if (pyStrip doc).length = 0 then rowPrompts query query_idx ds (doc_idx + 1)
      else (rewritePrompt query doc, query_idx, doc_idx) ::
        rowPrompts query query_idx ds (doc_idx + 1)

/-- Outer loop of the prompt-building phase (src line 87):
`for query_idx, (query, docs) in enumerate(zip(queries, contexts))`.  The two
parallel Python lists `all_prompts` and `query_doc_mapping` are the two
projections of this one list of pairs. -/
def buildPrompts : List String → List (List String) → Nat →
    List (String × Nat × Nat)
  | [], _, _ => []
  | _ :: _, [], _ => []
  | query :: qs, docs :: cs, query_idx =>
      rowPrompts query query_idx docs 0 ++ buildPrompts qs cs (query_idx + 1)

/-- `all_prompts` of separate mode. -/
def allPromptsSep (queries : List String) (contexts : List (List String)) :
    List String :=
  (buildPrompts queries contexts 0).map (·.1)

/-- `query_doc_mapping` of separate mode. -/
def mappingSep (queries : List String) (contexts : List (List String)) :
    List (Nat × Nat) :=
  (buildPrompts queries contexts 0).map (·.2)

/-- Nested read `l[q][d]` of a context set. -/
def get2 (l : List (List String)) (q d : Nat) : Option String :=
  (l[q]?).bind (fun row => row[d]?)

/-- Nested assignment `l[q][d] = v`; `none` models the `IndexError` Python
would raise on an out-of-range index. -/
def set2 (l : List (List String)) (q d : Nat) (v : String) :
    Option (List (List String)) :=
  (l[q]?).bind (fun row =>
    if d < row.length then some (l.set q (row.set d v)) else none)

/-- The reconstruction loop shared by separate mode (src lines 124-139) and
the title variant (src lines 300-316): `for passage_idx, (query_idx, doc_idx)
in enumerate(query_doc_mapping)`, read `contexts[query_idx][doc_idx]`, obtain
the new cell text from `f passage_idx original_text` (which reads the
generated passages, and for the title variant also the saved titles; `none`
models a raised `IndexError`), and assign it into the accumulator. -/
def reconstructLoop (contexts : List (List String))
    (f : Nat → String → Option String) :
    List (Nat × Nat) → Nat → List (List String) → Option (List (List String))
  | [], _, acc => some acc
  | (query_idx, doc_idx) :: rest, passage_idx, acc => do
      let row ← contexts[query_idx]?
      let original_text ← row[doc_idx]?
      let v ← f passage_idx original_text
      let acc1 ← set2 acc query_idx doc_idx v
      reconstructLoop contexts f rest (passage_idx + 1) acc1

/-- Cell value of separate mode (src lines 125-139): trim the generated text;
if non-empty, concatenate with the original (`{original_text}\n\nRefined
version: {rewritten_text}`) or replace, per `concatenate_original`; if empty,
keep the original. -/
def sepValue (concatenate_original : Bool) (original_text gentext : String) :
    String :=
  let rewritten_text := pyStrip gentext
  if rewritten_text.length > 0 then
    if concatenate_original then
      original_text ++ "\n\nRefined version: " ++ rewritten_text
    else rewritten_text
  else original_text

/-- Cell value of the title variant (src lines 300-316): on an empty trimmed
generation fall back to the original; otherwise prefix the original title
(`f"{title} {rewritten_text}"`) and concatenate or replace per
`concatenate_original`. -/
def titleValue (concatenate_original : Bool)
    (original_text title gentext : String) : String :=
  let rewritten_text := pyStrip gentext
  if rewritten_text.length = 0 then original_text
  else
    let rewritten_with_title := title ++ " " ++ rewritten_text
    if concatenate_original then
      original_text ++ "\n\nRefined version: " ++ rewritten_with_title
    else rewritten_with_title

/-- The fill-in loop (src lines 141-145 and 318-322): every cell still equal
to `""` (a document skipped as empty/whitespace-only) is replaced by the
original document.  Both dimensions of the accumulator have the input's
lengths by construction, so the Python index reads cannot fail and a total
`zipWith` is faithful. -/
def fillSkipped (contexts rc : List (List String)) : List (List String) :=
  List.zipWith
    (fun docs rdocs =>
      List.zipWith (fun doc rd => if rd = "" then doc else rd) docs rdocs)
    contexts rc

/-- `LLMRewriter._process`, separate mode (src lines 78-145, 190-194). -/
def LLMRewriter.processSep (r : Rewriter) (gen : Oracle) (st : GenState)
    (contexts : List (List String)) (queries : List String) :
    Option (List (List String)) × GenState × List (Nat × List String) :=
  let original_max_new_tokens := st.maxNewTokens
  let st1 : GenState := ⟨r.max_new_tokens⟩
  let all_prompts := allPromptsSep queries contexts
  let query_doc_mapping := mappingSep queries contexts
  let g := genLoop gen st1 (chunksOf r.batch_size all_prompts)
  let rewritten_passages := g.1
  let acc0 := contexts.map (fun docs => List.replicate docs.length "")
  match reconstructLoop contexts
      (fun passage_idx original_text =>
        (rewritten_passages[passage_idx]?).map
          (sepValue r.concatenate_original original_text))
      query_doc_mapping 0 acc0 with
  | none => (none, st1, g.2)
  | some rc => (some (fillSkipped contexts rc), ⟨original_max_new_tokens⟩, g.2)

/-- The labelled combination of a query's non-empty documents (src line 153):
`"\n\n".join(f"Passage {i+1}: {doc}" ...)`, `i` ranging over the original
positions. -/
def combinedPassageParts : List String → Nat → List String
  | [], _ => []
  | doc :: ds, i =>
      if (pyStrip doc).length = 0 then combinedPassageParts ds (i + 1)
      else ("Passage " ++ toString (i + 1) ++ ": " ++ doc) ::
        combinedPassageParts ds (i + 1)

/-- `combined_passage` of combined mode. -/
def combinedPassage (docs : List String) : String :=
  joinSep "\n\n" (combinedPassageParts docs 0)

/-- The labelled combination used on the output side of combined mode (src
line 180): `"\n\n".join(f"Document {i+1}: {doc}" ...)`. -/
def originalCombinedParts : List String → Nat → List String
  | [], _ => []
  | doc :: ds, i =>
      if (pyStrip doc).length = 0 then originalCombinedParts ds (i + 1)
      else ("Document " ++ toString (i + 1) ++ ": " ++ doc) ::
        originalCombinedParts ds (i + 1)

/-- `original_combined` of combined mode. -/
def originalCombined (docs : List String) : String :=
  joinSep "\n\n" (originalCombinedParts docs 0)

/-- Prompt building of combined mode (src lines 149-155): one prompt per
`(query, docs)` pair of `zip(queries, contexts)`, never skipping a query. -/
def combinedPrompts : List String → List (List String) → List String
  | [], _ => []
  | _ :: _, [] => []
  | query :: qs, docs :: cs =>
      rewritePrompt query (combinedPassage docs) :: combinedPrompts qs cs

/-- Output reconstruction of combined mode (src lines 175-188): for each
query's rewritten text, if non-empty after trimming emit a single-element
list (labelled originals + rewritten, or rewritten alone, per
`concatenate_original`, the rewritten text kept untrimmed), else emit the
original document list unchanged. -/
def reconstructComb (contexts : List (List String))
    (concatenate_original : Bool) :
    List String → Nat → Option (List (List String))
  | [], _ => some []
  | rewritten :: rest, query_idx => do
      let entry ←
        if (pyStrip rewritten).length > 0 then
          if concatenate_original then do
            let docs ← contexts[query_idx]?
            some [originalCombined docs ++ "\n\nRefined version:\n" ++ rewritten]
          else some [rewritten]
        else contexts[query_idx]?
      let tl ← reconstructComb contexts concatenate_original rest (query_idx + 1)
      some (entry :: tl)

/-- `LLMRewriter._process`, combined mode (src lines 78-84, 147-194). -/
def LLMRewriter.processComb (r : Rewriter) (gen : Oracle) (st : GenState)
    (contexts : List (List String)) (queries : List String) :
    Option (List (List String)) × GenState × List (Nat × List String) :=
  let original_max_new_tokens := st.maxNewTokens
  let st1 : GenState := ⟨r.max_new_tokens⟩
  let all_prompts := combinedPrompts queries contexts
  let g := genLoop gen st1 (chunksOf r.batch_size all_prompts)
  match reconstructComb contexts r.concatenate_original g.1 0 with
  | none => (none, st1, g.2)
  | some rc => (some rc, ⟨original_max_new_tokens⟩, g.2)

/-- `LLMRewriter._process` (src lines 65-194): dispatch on
`self.process_separately`. -/
def LLMRewriter.process (r : Rewriter) (gen : Oracle) (st : GenState)
    (contexts : List (List String)) (queries : List String) :
    Option (List (List String)) × GenState × List (Nat × List String) :=
  if r.process_separately then LLMRewriter.processSep r gen st contexts queries
  else LLMRewriter.processComb r gen st contexts queries

/-- Inner loop of the prompt-building phase of `LLMRewriterWithTitle._process`
(src lines 271-287): skip empty documents, split each kept document into
title and content, record prompt, `(query_idx, doc_idx)` and title. -/
def rowPromptsTitle (tok : SentTok) (query : String) (query_idx : Nat) :
    List String → Nat → List (String × (Nat × Nat) × String)
  | [], _ => []
  | doc :: ds, doc_idx =>
      if (pyStrip doc).length = 0 then
        rowPromptsTitle tok query query_idx ds (doc_idx + 1)
      else
        let tc := split_title_content tok doc
        (rewritePromptTitle query tc.1 tc.2, (query_idx, doc_idx), tc.1) ::
          rowPromptsTitle tok query query_idx ds (doc_idx + 1)

/-- Outer loop of the title variant's prompt building; the three parallel
Python lists `all_prompts`, `query_doc_mapping` and `titles` are the three
projections of this list. -/
def buildPromptsTitle (tok : SentTok) : List String → List (List String) →
    Nat → List (String × (Nat × Nat) × String)
  | [], _, _ => []
  | _ :: _, [], _ => []
  | query :: qs, docs :: cs, query_idx =>
      rowPromptsTitle tok query query_idx docs 0 ++
        buildPromptsTitle tok qs cs (query_idx + 1)

/-- `all_prompts` of the title variant. -/
def allPromptsTitle (tok : SentTok) (queries : List String)
    (contexts : List (List String)) : List String :=
  (buildPromptsTitle tok queries contexts 0).map (·.1)

/-- `query_doc_mapping` of the title variant. -/
def mappingTitle (tok : SentTok) (queries : List String)
    (contexts : List (List String)) : List (Nat × Nat) :=
  (buildPromptsTitle tok queries contexts 0).map (·.2.1)

/-- `titles` of the title variant. -/
def titlesTitle (tok : SentTok) (queries : List String)
    (contexts : List (List String)) : List String :=
  (buildPromptsTitle tok queries contexts 0).map (·.2.2)

/-- `LLMRewriterWithTitle._process` (src lines 257-325). -/
def LLMRewriterWithTitle.process (rt : TitleRewriter) (tok : SentTok)
    (gen : Oracle) (st : GenState) (contexts : List (List String))
    (queries : List String) :
    Option (List (List String)) × GenState × List (Nat × List String) :=
  let original_max_new_tokens := st.maxNewTokens
  let st1 : GenState := ⟨rt.max_new_tokens⟩
  let all_prompts := allPromptsTitle tok queries contexts
  let query_doc_mapping := mappingTitle tok queries contexts
  let titles := titlesTitle tok queries contexts
  let g := genLoop gen st1 (chunksOf rt.batch_size all_prompts)
  let rewritten_contents := g.1
  let acc0 := contexts.map (fun docs => List.replicate docs.length "")
  match reconstructLoop contexts
      (fun passage_idx original_text => do
        let gentext ← rewritten_contents[passage_idx]?
        let title ← titles[passage_idx]?
        some (titleValue rt.concatenate_original original_text title gentext))
      query_doc_mapping 0 acc0 with
  | none => (none, st1, g.2)
  | some rc => (some (fillSkipped contexts rc), ⟨original_max_new_tokens⟩, g.2)

/-- Ceiling division, for the batch-count claim. -/
def ceilDiv (n b : Nat) : Nat := (n + b - 1) / b

/-! ### Basic lemmas -/

theorem string_length_eq_zero (s : String) : s.length = 0 ↔ s = "" := by
  cases s with
  | mk data =>
    rw [String.ext_iff]
    show data.length = 0 ↔ data = []
    simp [List.length_eq_zero]

theorem string_ne_empty_of_length_pos {s : String} (h : 0 < s.length) :
    s ≠ "" := by
  intro he
  rw [he] at h
  simp at h

theorem append_ne_empty_mid (a b c : String) (hb : 0 < b.length) :
    a ++ b ++ c ≠ "" := by
  apply string_ne_empty_of_length_pos
  rw [String.length_append, String.length_append]
  omega

theorem getElem?_zipWith_some {f : α → β → γ} {l1 : List α} {l2 : List β}
    {i : Nat} {a : α} {b : β} (h1 : l1[i]? = some a) (h2 : l2[i]? = some b) :
    (List.zipWith f l1 l2)[i]? = some (f a b) := by
  rw [List.getElem?_zipWith']
  simp [h1, h2]

/-! ### Lemmas about `chunksOf` -/

theorem chunksOfFuel_congr {b : Nat} (hb : 1 ≤ b) :
    ∀ (fuel fuel' : Nat) (l : List α), l.length ≤ fuel → l.length ≤ fuel' →
      chunksOfFuel b fuel l = chunksOfFuel b fuel' l
  | _, _, [], _, _ => by simp [chunksOfFuel]
  | 0, _, x :: xs, h, _ => by simp at h
  | _ + 1, 0, x :: xs, _, h' => by simp at h'
  | fuel + 1, fuel' + 1, x :: xs, h, h' => by
    simp only [chunksOfFuel]
    congr 1
    apply chunksOfFuel_congr hb
    · rw [List.length_drop]
      simp only [List.length_cons] at h ⊢
      omega
    · rw [List.length_drop]
      simp only [List.length_cons] at h' ⊢
      omega

theorem chunksOf_nil (b : Nat) : chunksOf b ([] : List α) = [] := rfl

theorem chunksOf_cons {b : Nat} (hb : 1 ≤ b) {l : List α} (hl : l ≠ []) :
    chunksOf b l = l.take b :: chunksOf b (l.drop b) := by
  cases l with
  | nil => exact absurd rfl hl
  | cons x xs =>
    show chunksOfFuel b (xs.length + 1) (x :: xs) = _
    simp only [chunksOfFuel]
    congr 1
    apply chunksOfFuel_congr hb
    · simp [List.length_drop]; omega
    · simp

theorem chunksOf_flatten {b : Nat} (hb : 1 ≤ b) :
    ∀ l : List α, (chunksOf b l).flatten = l
  | [] => by simp [chunksOf_nil]
  | x :: xs => by
    rw [chunksOf_cons hb (by simp)]
    rw [List.flatten_cons, chunksOf_flatten hb ((x :: xs).drop b)]
    exact List.take_append_drop b (x :: xs)
termination_by l => l.length
decreasing_by simp [List.length_drop]; omega

theorem chunksOf_mem_length_le {b : Nat} (hb : 1 ≤ b) :
    ∀ (l : List α), ∀ c ∈ chunksOf b l, c.length ≤ b
  | [] => by simp [chunksOf_nil]
  | x :: xs => by
    rw [chunksOf_cons hb (by simp)]
    intro c hc
    rcases List.mem_cons.mp hc with h | h
    · subst h
      simp [List.length_take]
    · exact chunksOf_mem_length_le hb ((x :: xs).drop b) c h
termination_by l => l.length
decreasing_by simp [List.length_drop]; omega

theorem ceilDiv_succ (n b : Nat) (hb : 1 ≤ b) :
    ceilDiv (n + 1) b = ceilDiv (n + 1 - b) b + 1 := by
  simp only [ceilDiv]
  rcases Nat.le_total b (n + 1) with h | h
  · have key : n + 1 - b + b - 1 + b = n + 1 + b - 1 := by omega
    rw [← key, Nat.add_div_right _ (by omega : 0 < b)]
  · have hd : n + 1 - b = 0 := by omega
    have h1 : (n + 1 + b - 1) / b = 1 :=
      Nat.div_eq_of_lt_le (by omega) (by omega)
    have h0 : (n + 1 - b + b - 1) / b = 0 := by
      rw [hd]
      exact Nat.div_eq_of_lt (by omega)
    rw [h0, h1]

theorem chunksOf_length {b : Nat} (hb : 1 ≤ b) :
    ∀ l : List α, (chunksOf b l).length = ceilDiv l.length b
  | [] => by
    simp only [chunksOf_nil, List.length_nil, ceilDiv]
    rw [Nat.div_eq_of_lt (by omega)]
  | x :: xs => by
    rw [chunksOf_cons hb (by simp)]
    rw [List.length_cons, chunksOf_length hb ((x :: xs).drop b)]
    rw [List.length_drop, List.length_cons]
    exact (ceilDiv_succ xs.length b hb).symm
termination_by l => l.length
decreasing_by simp [List.length_drop]; omega

/-! ### Lemmas about `genLoop` -/

theorem genLoop_snd (gen : Oracle) (st : GenState) :
    ∀ chunks : List (List String),
      (genLoop gen st chunks).2 = chunks.map (fun c => (st.maxNewTokens, c))
  | [] => rfl
  | c :: rest => by
    simp only [genLoop, List.map_cons]
    rw [← genLoop_snd gen st rest]

theorem genLoop_fst (gen : Oracle) (st : GenState) :
    ∀ chunks : List (List String),
      (genLoop gen st chunks).1 = (chunks.map (chunkOut gen)).flatten
  | [] => rfl
  | c :: rest => by
    simp only [genLoop, List.map_cons, List.flatten_cons]
    rw [← genLoop_fst gen st rest]

theorem chunkOut_length {gen : Oracle} (hg : GoodGen gen) (c : List String) :
    (chunkOut gen c).length = c.length := by
  unfold chunkOut
  cases h : gen c with
  | ok l => exact hg c l h
  | error e => simp

theorem genLoop_fst_length {gen : Oracle} (hg : GoodGen gen) {b : Nat}
    (hb : 1 ≤ b) (st : GenState) (l : List String) :
    (genLoop gen st (chunksOf b l)).1.length = l.length := by
  rw [genLoop_fst, List.length_flatten, List.map_map]
  have : (chunksOf b l).map (List.length ∘ chunkOut gen) =
      (chunksOf b l).map List.length := by
    apply List.map_congr_left
    intro c _
    exact chunkOut_length hg c
  rw [this, ← List.length_flatten, chunksOf_flatten hb]

theorem genLoop_get_some {gen : Oracle} (hg : GoodGen gen) {b : Nat}
    (hb : 1 ≤ b) (st : GenState) (l : List String) {k : Nat}
    (hk : k < l.length) :
    ∃ g, (genLoop gen st (chunksOf b l)).1[k]? = some g := by
  have hlen := genLoop_fst_length hg hb st l
  exact ⟨_, List.getElem?_eq_getElem (by omega)⟩

/-- Outputs at positions of a batch on which the collaborator raised are the
substituted empty strings. -/
theorem genOuts_err_get {gen : Oracle} (hg : GoodGen gen) {b : Nat}
    (hb : 1 ≤ b) :
    ∀ (l : List String) (k : Nat), k < l.length →
      gen ((l.drop (b * (k / b))).take b) = Except.error () →
      ((chunksOf b l).map (chunkOut gen)).flatten[k]? = some ""
  | [], k, hk, _ => by simp at hk
  | x :: xs, k, hk, he => by
    rw [chunksOf_cons hb (by simp), List.map_cons, List.flatten_cons]
    simp only [List.length_cons] at hk
    by_cases hkb : k < b
    · have hdiv : k / b = 0 := Nat.div_eq_of_lt hkb
      rw [hdiv, Nat.mul_zero, List.drop_zero] at he
      have hco : chunkOut gen ((x :: xs).take b) =
          List.replicate ((x :: xs).take b).length "" := by
        unfold chunkOut
        rw [he]
      have hklt : k < ((x :: xs).take b).length := by
        rw [List.length_take, List.length_cons]
        omega
      have hlt : k < (chunkOut gen ((x :: xs).take b)).length := by
        rw [chunkOut_length hg]
        exact hklt
      rw [List.getElem?_append_left hlt, hco, List.getElem?_replicate,
        if_pos hklt]
    · push_neg at hkb
      have hfirst : (chunkOut gen ((x :: xs).take b)).length = b := by
        rw [chunkOut_length hg, List.length_take, List.length_cons]
        omega
      rw [List.getElem?_append_right (by omega), hfirst]
      have hdiv : k / b = (k - b) / b + 1 := Nat.div_eq_sub_div (by omega) hkb
      have harith : b * (k / b) = b + b * ((k - b) / b) := by
        rw [hdiv, Nat.mul_add]
        omega
      rw [harith, ← List.drop_drop] at he
      exact genOuts_err_get hg hb ((x :: xs).drop b) (k - b)
        (by rw [List.length_drop, List.length_cons]; omega) he
termination_by l k => l.length
decreasing_by simp [List.length_drop]; omega

/-! ### Lemmas about `set2`, `get2` and `reconstructLoop` -/

theorem set2_some {acc : List (List String)} {q d : Nat} {v : String}
    {row : List String} (hq : acc[q]? = some row) (hd : d < row.length) :
    set2 acc q d v = some (acc.set q (row.set d v)) := by
  unfold set2
  rw [hq, Option.some_bind, if_pos hd]

theorem set2_eq_some {acc acc1 : List (List String)} {q d : Nat} {v : String}
    (h : set2 acc q d v = some acc1) :
    ∃ row, acc[q]? = some row ∧ d < row.length ∧
      acc1 = acc.set q (row.set d v) := by
  unfold set2 at h
  rw [Option.bind_eq_some] at h
  obtain ⟨row, hq, hif⟩ := h
  by_cases hd : d < row.length
  · rw [if_pos hd] at hif
    exact ⟨row, hq, hd, (Option.some_inj.mp hif).symm⟩
  · rw [if_neg hd] at hif
    simp at hif

theorem get2_set2_self {acc acc1 : List (List String)} {q d : Nat}
    {v : String} (h : set2 acc q d v = some acc1) :
    get2 acc1 q d = some v := by
  obtain ⟨row, hq, hd, rfl⟩ := set2_eq_some h
  have hqlt : q < acc.length := (List.getElem?_eq_some.mp hq).1
  unfold get2
  rw [List.getElem?_set_eq_of_lt _ hqlt, Option.some_bind]
  exact List.getElem?_set_eq_of_lt _ hd

theorem get2_set2_ne {acc acc1 : List (List String)} {q' d' q d : Nat}
    {v : String} (h : set2 acc q' d' v = some acc1)
    (hne : (q', d') ≠ (q, d)) : get2 acc1 q d = get2 acc q d := by
  obtain ⟨row, hq, hd, rfl⟩ := set2_eq_some h
  by_cases hqq : q' = q
  · subst hqq
    have hdd : d' ≠ d := by
      intro hdd
      exact hne (by rw [hdd])
    unfold get2
    rw [List.getElem?_set_eq_of_lt _ ((List.getElem?_eq_some.mp hq).1), hq,
      Option.some_bind, Option.some_bind]
    exact List.getElem?_set_ne hdd
  · unfold get2
    rw [List.getElem?_set_ne hqq]

theorem set2_shape {acc acc1 : List (List String)} {q d : Nat} {v : String}
    (h : set2 acc q d v = some acc1) :
    acc1.map List.length = acc.map List.length := by
  obtain ⟨row, hq, hd, rfl⟩ := set2_eq_some h
  apply List.ext_getElem?
  intro i
  rw [List.getElem?_map, List.getElem?_map]
  by_cases hiq : i = q
  · subst hiq
    rw [List.getElem?_set_eq_of_lt _ ((List.getElem?_eq_some.mp hq).1), hq]
    simp [List.length_set]
  · rw [List.getElem?_set_ne (Ne.symm hiq)]

theorem reconstructLoop_some (contexts : List (List String))
    (f : Nat → String → Option String) :
    ∀ (ms : List (Nat × Nat)) (i0 : Nat) (acc : List (List String)),
      acc.map List.length = contexts.map List.length →
      (∀ m ∈ ms, ∃ row : List String,
        contexts[m.1]? = some row ∧ m.2 < row.length) →
      (∀ k, k < ms.length → ∀ orig, (f (i0 + k) orig).isSome) →
      ∃ out, reconstructLoop contexts f ms i0 acc = some out ∧
        out.map List.length = contexts.map List.length
  | [], i0, acc => fun hacc _ _ => ⟨acc, rfl, hacc⟩
  | (q, d) :: rest, i0, acc => by
    intro hacc hms hf
    obtain ⟨row, hq, hd⟩ := hms (q, d) (List.mem_cons_self _ _)
    have horig : row[d]? = some row[d] := List.getElem?_eq_getElem hd
    have hv : (f i0 row[d]).isSome := by
      have := hf 0 (by simp) row[d]
      rwa [Nat.add_zero] at this
    obtain ⟨v, hv⟩ := Option.isSome_iff_exists.mp hv
    have haq : acc[q]? = some (acc.get ⟨q, by
        have h1 : (acc.map List.length).length = (contexts.map List.length).length := by
          rw [hacc]
        simp only [List.length_map] at h1
        rw [h1]
        exact (List.getElem?_eq_some.mp hq).1⟩) := by
      exact List.getElem?_eq_getElem _
    set arow := acc.get ⟨q, _⟩ with harow
    have hlen : arow.length = row.length := by
      have h1 : (acc.map List.length)[q]? = (contexts.map List.length)[q]? := by
        rw [hacc]
      rw [List.getElem?_map, List.getElem?_map, haq, hq] at h1
      simpa using h1
    have hset : set2 acc q d v = some (acc.set q (arow.set d v)) :=
      set2_some haq (by omega)
    have hshape : (acc.set q (arow.set d v)).map List.length =
        contexts.map List.length := by
      rw [← hacc]
      exact set2_shape hset
    obtain ⟨out, hrec, hout⟩ := reconstructLoop_some contexts f rest (i0 + 1)
      (acc.set q (arow.set d v)) hshape
      (fun m hm => hms m (List.mem_cons_of_mem _ hm))
      (fun k hk orig => by
        have := hf (k + 1) (by simpa using Nat.succ_lt_succ hk) orig
        rwa [show i0 + (k + 1) = i0 + 1 + k by omega] at this)
    refine ⟨out, ?_, hout⟩
    unfold reconstructLoop
    rw [hq]
    simp only [Option.bind_eq_bind, Option.some_bind]
    rw [horig]
    simp only [Option.some_bind]
    rw [hv]
    simp only [Option.some_bind]
    rw [hset]
    simpa using hrec

theorem reconstructLoop_frame (contexts : List (List String))
    (f : Nat → String → Option String) (q d : Nat) :
    ∀ (ms : List (Nat × Nat)) (i0 : Nat) (acc out : List (List String)),
      reconstructLoop contexts f ms i0 acc = some out →
      (∀ m ∈ ms, m ≠ (q, d)) → get2 out q d = get2 acc q d
  | [], i0, acc, out => by
    intro h _
    simp only [reconstructLoop] at h
    rw [Option.some_inj.mp h]
  | (q0, d0) :: rest, i0, acc, out => by
    intro h hne
    unfold reconstructLoop at h
    simp only [Option.bind_eq_bind, Option.bind_eq_some] at h
    obtain ⟨row, _, orig, _, v, _, acc1, hset, hrec⟩ := h
    have h1 : get2 out q d = get2 acc1 q d :=
      reconstructLoop_frame contexts f q d rest (i0 + 1) acc1 out hrec
        (fun m hm => hne m (List.mem_cons_of_mem _ hm))
    rw [h1]
    exact get2_set2_ne hset (hne (q0, d0) (List.mem_cons_self _ _))

theorem reconstructLoop_get (contexts : List (List String))
    (f : Nat → String → Option String) :
    ∀ (ms : List (Nat × Nat)) (i0 : Nat) (acc out : List (List String))
      (k q d : Nat),
      reconstructLoop contexts f ms i0 acc = some out →
      ms[k]? = some (q, d) →
      (∀ k' m', k < k' → ms[k']? = some m' → m' ≠ (q, d)) →
      ∃ row orig v, contexts[q]? = some row ∧ row[d]? = some orig ∧
        f (i0 + k) orig = some v ∧ get2 out q d = some v
  | [], _, _, _, k, q, d => by
    intro _ hk _
    simp at hk
  | (q0, d0) :: rest, i0, acc, out, k, q, d => by
    intro h hk hlater
    unfold reconstructLoop at h
    simp only [Option.bind_eq_bind, Option.bind_eq_some] at h
    obtain ⟨row, hrow, orig, horig, v, hvv, acc1, hset, hrec⟩ := h
    cases k with
    | zero =>
      rw [List.getElem?_cons_zero] at hk
      have hpair : (q0, d0) = (q, d) := Option.some_inj.mp hk
      injection hpair with hq1 hd1
      subst hq1
      subst hd1
      refine ⟨row, orig, v, hrow, horig, by rwa [Nat.add_zero], ?_⟩
      have hframe : get2 out q0 d0 = get2 acc1 q0 d0 :=
        reconstructLoop_frame contexts f q0 d0 rest (i0 + 1) acc1 out hrec
          (fun m hm => by
            obtain ⟨j, hj, hjm⟩ := List.mem_iff_getElem.mp hm
            exact hlater (j + 1) m (by omega)
              (by rw [List.getElem?_cons_succ, List.getElem?_eq_getElem hj, hjm]))
      rw [hframe]
      exact get2_set2_self hset
    | succ k' =>
      rw [List.getElem?_cons_succ] at hk
      obtain ⟨row', orig', v', h1, h2, h3, h4⟩ :=
        reconstructLoop_get contexts f rest (i0 + 1) acc1 out k' q d hrec hk
          (fun k'' m' hkk hm' =>
            hlater (k'' + 1) m' (by omega)
              (by rw [List.getElem?_cons_succ]; exact hm'))
      exact ⟨row', orig', v', h1, h2,
        by rwa [show i0 + 1 + k' = i0 + (k' + 1) by omega] at h3, h4⟩

/-! ### Characterization of the prompt-building phase -/

theorem rowPrompts_mem {e : String × Nat × Nat} (query : String) (qi : Nat) :
    ∀ (ds : List String) (di : Nat), e ∈ rowPrompts query qi ds di →
      e.2.1 = qi ∧ di ≤ e.2.2 ∧ ∃ doc, ds[e.2.2 - di]? = some doc ∧
        (pyStrip doc).length ≠ 0 ∧ e.1 = rewritePrompt query doc
  | [], di => by simp [rowPrompts]
  | doc :: ds, di => by
    intro hmem
    unfold rowPrompts at hmem
    by_cases hskip : (pyStrip doc).length = 0
    · rw [if_pos hskip] at hmem
      obtain ⟨h1, h2, doc', h3, h4, h5⟩ := rowPrompts_mem query qi ds (di + 1) hmem
      refine ⟨h1, by omega, doc', ?_, h4, h5⟩
      rw [show e.2.2 - di = (e.2.2 - (di + 1)) + 1 by omega]
      rw [List.getElem?_cons_succ]
      exact h3
    · rw [if_neg hskip] at hmem
      rcases List.mem_cons.mp hmem with h | h
      · subst h
        exact ⟨rfl, Nat.le_refl di, doc, by simp, hskip, rfl⟩
      · obtain ⟨h1, h2, doc', h3, h4, h5⟩ := rowPrompts_mem query qi ds (di + 1) h
        refine ⟨h1, by omega, doc', ?_, h4, h5⟩
        rw [show e.2.2 - di = (e.2.2 - (di + 1)) + 1 by omega]
        rw [List.getElem?_cons_succ]
        exact h3

theorem buildPrompts_mem {e : String × Nat × Nat} :
    ∀ (qs : List String) (cs : List (List String)) (i0 : Nat),
      e ∈ buildPrompts qs cs i0 →
      i0 ≤ e.2.1 ∧ ∃ query docs doc,
        qs[e.2.1 - i0]? = some query ∧ cs[e.2.1 - i0]? = some docs ∧
        docs[e.2.2]? = some doc ∧ (pyStrip doc).length ≠ 0 ∧
        e.1 = rewritePrompt query doc
  | [], cs, i0 => by simp [buildPrompts]
  | q :: qs, [], i0 => by simp [buildPrompts]
  | query :: qs, docs :: cs, i0 => by
    intro hmem
    unfold buildPrompts at hmem
    rcases List.mem_append.mp hmem with h | h
    · obtain ⟨h1, _, doc, h3, h4, h5⟩ := rowPrompts_mem query i0 docs 0 h
      refine ⟨by omega, query, docs, doc, ?_, ?_, by simpa using h3, h4, h5⟩
      · rw [show e.2.1 - i0 = 0 by omega]
        simp
      · rw [show e.2.1 - i0 = 0 by omega]
        simp
    · obtain ⟨h1, query', docs', doc', h2, h3, h4, h5, h6⟩ :=
        buildPrompts_mem qs cs (i0 + 1) h
      refine ⟨by omega, query', docs', doc', ?_, ?_, h4, h5, h6⟩
      · rw [show e.2.1 - i0 = (e.2.1 - (i0 + 1)) + 1 by omega,
          List.getElem?_cons_succ]
        exact h2
      · rw [show e.2.1 - i0 = (e.2.1 - (i0 + 1)) + 1 by omega,
          List.getElem?_cons_succ]
        exact h3

/-- Strict lexicographic order on `(query_idx, doc_idx)` pairs. -/
def idxLex (a b : Nat × Nat) : Prop :=
  a.1 < b.1 ∨ (a.1 = b.1 ∧ a.2 < b.2)

theorem idxLex_ne {a b : Nat × Nat} (h : idxLex a b) : b ≠ a := by
  intro he
  subst he
  rcases h with h | ⟨_, h⟩ <;> omega

theorem rowPrompts_pairwise (query : String) (qi : Nat) :
    ∀ (ds : List String) (di : Nat),
      List.Pairwise (fun a b => a.2.2 < b.2.2) (rowPrompts query qi ds di)
  | [], di => by simp [rowPrompts]
  | doc :: ds, di => by
    unfold rowPrompts
    by_cases hskip : (pyStrip doc).length = 0
    · rw [if_pos hskip]
      exact rowPrompts_pairwise query qi ds (di + 1)
    · rw [if_neg hskip]
      refine List.Pairwise.cons ?_ (rowPrompts_pairwise query qi ds (di + 1))
      intro b hb
      have := (rowPrompts_mem query qi ds (di + 1) hb).2.1
      show di < b.2.2
      omega

theorem buildPrompts_pairwise :
    ∀ (qs : List String) (cs : List (List String)) (i0 : Nat),
      List.Pairwise (fun a b => idxLex a.2 b.2) (buildPrompts qs cs i0)
  | [], cs, i0 => by simp [buildPrompts]
  | q :: qs, [], i0 => by simp [buildPrompts]
  | query :: qs, docs :: cs, i0 => by
    unfold buildPrompts
    rw [List.pairwise_append]
    refine ⟨?_, buildPrompts_pairwise qs cs (i0 + 1), ?_⟩
    · apply List.Pairwise.imp_of_mem ?_ (rowPrompts_pairwise query i0 docs 0)
      intro a b ha hb hab
      have ha1 := (rowPrompts_mem query i0 docs 0 ha).1
      have hb1 := (rowPrompts_mem query i0 docs 0 hb).1
      exact Or.inr ⟨by rw [ha1, hb1], hab⟩
    · intro a ha b hb
      have ha1 := (rowPrompts_mem query i0 docs 0 ha).1
      have hb1 := (buildPrompts_mem qs cs (i0 + 1) hb).1
      exact Or.inl (by omega)

/-- The later-duplicate-freedom hypothesis of `reconstructLoop_get`, from the
pairwise lexicographic ordering of the mapping. -/
theorem mapping_later_ne {ms : List (Nat × Nat)}
    (hp : List.Pairwise idxLex ms) {k : Nat} {q d : Nat}
    (hk : ms[k]? = some (q, d)) :
    ∀ k' m', k < k' → ms[k']? = some m' → m' ≠ (q, d) := by
  intro k' m' hkk hk'
  have hklt : k < ms.length := (List.getElem?_eq_some.mp hk).1
  have hk'lt : k' < ms.length := (List.getElem?_eq_some.mp hk').1
  have h1 : ms[k] = (q, d) := by
    have := List.getElem?_eq_getElem hklt
    rw [hk] at this
    exact (Option.some_inj.mp this).symm
  have h2 : ms[k'] = m' := by
    have := List.getElem?_eq_getElem hk'lt
    rw [hk'] at this
    exact (Option.some_inj.mp this).symm
  have := List.pairwise_iff_getElem.mp hp k k' hklt hk'lt hkk
  rw [h1, h2] at this
  exact idxLex_ne this

theorem mappingSep_pairwise (queries : List String)
    (contexts : List (List String)) :
    List.Pairwise idxLex (mappingSep queries contexts) := by
  unfold mappingSep
  rw [List.pairwise_map]
  exact buildPrompts_pairwise queries contexts 0

theorem mappingSep_valid (queries : List String)
    (contexts : List (List String)) :
    ∀ m ∈ mappingSep queries contexts,
      ∃ row : List String, contexts[m.1]? = some row ∧ m.2 < row.length := by
  intro m hm
  obtain ⟨e, he, hem⟩ := List.mem_map.mp hm
  obtain ⟨_, query, docs, doc, _, h3, h4, _, _⟩ := buildPrompts_mem _ _ _ he
  subst hem
  simp only [Nat.sub_zero] at h3
  exact ⟨docs, h3, (List.getElem?_eq_some.mp h4).1⟩

/-- The element of `buildPrompts` behind a mapping index: its doc and prompt. -/
theorem mappingSep_getElem {queries : List String}
    {contexts : List (List String)} {k q d : Nat}
    (hk : (mappingSep queries contexts)[k]? = some (q, d)) :
    ∃ query docs doc, queries[q]? = some query ∧ contexts[q]? = some docs ∧
      docs[d]? = some doc ∧ (pyStrip doc).length ≠ 0 ∧
      (allPromptsSep queries contexts)[k]? = some (rewritePrompt query doc) := by
  unfold mappingSep at hk
  rw [List.getElem?_map] at hk
  cases he : (buildPrompts queries contexts 0)[k]? with
  | none => rw [he] at hk; simp at hk
  | some e =>
    rw [he] at hk
    have hem : e.2 = (q, d) := by simpa using hk
    have hmem : e ∈ buildPrompts queries contexts 0 := by
      obtain ⟨hlt, hval⟩ := List.getElem?_eq_some.mp he
      exact hval ▸ List.getElem_mem hlt
    obtain ⟨_, query, docs, doc, h2, h3, h4, h5, h6⟩ := buildPrompts_mem _ _ _ hmem
    simp only [Nat.sub_zero] at h2 h3
    rw [hem] at h2 h3 h4
    refine ⟨query, docs, doc, h2, h3, (by simpa using h4), h5, ?_⟩
    unfold allPromptsSep
    rw [List.getElem?_map, he]
    simp [h6]

/-! ### The fill-in pass and the initial accumulator -/

theorem fillSkipped_shape :
    ∀ (contexts rc : List (List String)),
      rc.map List.length = contexts.map List.length →
      (fillSkipped contexts rc).map List.length = contexts.map List.length
  | [], rc, _ => by simp [fillSkipped]
  | docs :: cs, [], h => by simp at h
  | docs :: cs, rdocs :: rcs, h => by
    simp only [List.map_cons, List.cons.injEq] at h
    unfold fillSkipped
    simp only [List.zipWith_cons_cons, List.map_cons, List.cons.injEq]
    constructor
    · rw [List.length_zipWith, h.1, Nat.min_self]
    · exact fillSkipped_shape cs rcs h.2

theorem fillSkipped_get2 {contexts rc : List (List String)} {q d : Nat}
    {doc rv : String} (hc : get2 contexts q d = some doc)
    (hr : get2 rc q d = some rv) :
    get2 (fillSkipped contexts rc) q d =
      some (if rv = "" then doc else rv) := by
  unfold get2 at hc hr ⊢
  rw [Option.bind_eq_some] at hc hr
  obtain ⟨row, hrow, hd⟩ := hc
  obtain ⟨rrow, hrrow, hrd⟩ := hr
  unfold fillSkipped
  rw [getElem?_zipWith_some hrow hrrow, Option.some_bind]
  exact getElem?_zipWith_some hd hrd

theorem acc0_shape (contexts : List (List String)) :
    (contexts.map (fun docs => List.replicate docs.length "")).map
      List.length = contexts.map List.length := by
  rw [List.map_map]
  apply List.map_congr_left
  intro docs _
  simp

theorem acc0_get2 {contexts : List (List String)} {q d : Nat}
    {row : List String} (hq : contexts[q]? = some row) (hd : d < row.length) :
    get2 (contexts.map (fun docs => List.replicate docs.length "")) q d =
      some "" := by
  unfold get2
  rw [List.getElem?_map, hq]
  simp [List.getElem?_replicate, hd]

/-! ### Assembly of separate mode -/

/-- The `rewritten_passages` list produced by the generation loop of separate
mode. -/
def passagesSep (r : Rewriter) (gen : Oracle) (queries : List String)
    (contexts : List (List String)) : List String :=
  (genLoop gen ⟨r.max_new_tokens⟩
    (chunksOf r.batch_size (allPromptsSep queries contexts))).1

theorem processSep_eq {r : Rewriter} {gen : Oracle} (hg : GoodGen gen)
    (hb : 1 ≤ r.batch_size) (st : GenState) (contexts : List (List String))
    (queries : List String) :
    ∃ rc, reconstructLoop contexts
        (fun passage_idx original_text =>
          ((passagesSep r gen queries contexts)[passage_idx]?).map
            (sepValue r.concatenate_original original_text))
        (mappingSep queries contexts) 0
        (contexts.map (fun docs => List.replicate docs.length "")) = some rc ∧
      rc.map List.length = contexts.map List.length ∧
      LLMRewriter.processSep r gen st contexts queries =
        (some (fillSkipped contexts rc), st,
          (chunksOf r.batch_size (allPromptsSep queries contexts)).map
            (fun c => (r.max_new_tokens, c))) := by
  have hlen : (passagesSep r gen queries contexts).length =
      (allPromptsSep queries contexts).length := by
    unfold passagesSep
    exact genLoop_fst_length hg hb _ _
  have hmlen : (mappingSep queries contexts).length =
      (allPromptsSep queries contexts).length := by
    unfold mappingSep allPromptsSep
    simp
  obtain ⟨rc, hrec, hshape⟩ := reconstructLoop_some contexts
    (fun passage_idx original_text =>
      ((passagesSep r gen queries contexts)[passage_idx]?).map
        (sepValue r.concatenate_original original_text))
    (mappingSep queries contexts) 0
    (contexts.map (fun docs => List.replicate docs.length ""))
    (acc0_shape contexts) (mappingSep_valid queries contexts)
    (fun k hk orig => by
      have hklt : 0 + k < (passagesSep r gen queries contexts).length := by
        omega
      simp only [List.getElem?_eq_getElem hklt, Option.map_some',
        Option.isSome_some])
  refine ⟨rc, hrec, hshape, ?_⟩
  have hrec' := hrec
  unfold passagesSep at hrec'
  unfold LLMRewriter.processSep
  simp only
  rw [hrec']
  have htr := genLoop_snd gen (⟨r.max_new_tokens⟩ : GenState)
    (chunksOf r.batch_size (allPromptsSep queries contexts))
  rw [htr]

/-! ### Characterization of the title variant's prompt building -/

theorem rowPromptsTitle_mem {e : String × (Nat × Nat) × String}
    (tok : SentTok) (query : String) (qi : Nat) :
    ∀ (ds : List String) (di : Nat), e ∈ rowPromptsTitle tok query qi ds di →
      e.2.1.1 = qi ∧ di ≤ e.2.1.2 ∧ ∃ doc, ds[e.2.1.2 - di]? = some doc ∧
        (pyStrip doc).length ≠ 0 ∧
        e.1 = rewritePromptTitle query (split_title_content tok doc).1
          (split_title_content tok doc).2 ∧
        e.2.2 = (split_title_content tok doc).1
  | [], di => by simp [rowPromptsTitle]
  | doc :: ds, di => by
    intro hmem
    unfold rowPromptsTitle at hmem
    by_cases hskip : (pyStrip doc).length = 0
    · rw [if_pos hskip] at hmem
      obtain ⟨h1, h2, doc', h3, h4, h5, h6⟩ :=
        rowPromptsTitle_mem tok query qi ds (di + 1) hmem
      refine ⟨h1, by omega, doc', ?_, h4, h5, h6⟩
      rw [show e.2.1.2 - di = (e.2.1.2 - (di + 1)) + 1 by omega,
        List.getElem?_cons_succ]
      exact h3
    · rw [if_neg hskip] at hmem
      rcases List.mem_cons.mp hmem with h | h
      · subst h
        exact ⟨rfl, Nat.le_refl di, doc, by simp, hskip, rfl, rfl⟩
      · obtain ⟨h1, h2, doc', h3, h4, h5, h6⟩ :=
          rowPromptsTitle_mem tok query qi ds (di + 1) h
        refine ⟨h1, by omega, doc', ?_, h4, h5, h6⟩
        rw [show e.2.1.2 - di = (e.2.1.2 - (di + 1)) + 1 by omega,
          List.getElem?_cons_succ]
        exact h3

theorem buildPromptsTitle_mem {e : String × (Nat × Nat) × String}
    (tok : SentTok) :
    ∀ (qs : List String) (cs : List (List String)) (i0 : Nat),
      e ∈ buildPromptsTitle tok qs cs i0 →
      i0 ≤ e.2.1.1 ∧ ∃ query docs doc,
        qs[e.2.1.1 - i0]? = some query ∧ cs[e.2.1.1 - i0]? = some docs ∧
        docs[e.2.1.2]? = some doc ∧ (pyStrip doc).length ≠ 0 ∧
        e.1 = rewritePromptTitle query (split_title_content tok doc).1
          (split_title_content tok doc).2 ∧
        e.2.2 = (split_title_content tok doc).1
  | [], cs, i0 => by simp [buildPromptsTitle]
  | q :: qs, [], i0 => by simp [buildPromptsTitle]
  | query :: qs, docs :: cs, i0 => by
    intro hmem
    unfold buildPromptsTitle at hmem
    rcases List.mem_append.mp hmem with h | h
    · obtain ⟨h1, _, doc, h3, h4, h5, h6⟩ :=
        rowPromptsTitle_mem tok query i0 docs 0 h
      refine ⟨by omega, query, docs, doc, ?_, ?_, by simpa using h3, h4, h5, h6⟩
      · rw [show e.2.1.1 - i0 = 0 by omega]
        simp
      · rw [show e.2.1.1 - i0 = 0 by omega]
        simp
    · obtain ⟨h1, query', docs', doc', h2, h3, h4, h5, h6, h7⟩ :=
        buildPromptsTitle_mem tok qs cs (i0 + 1) h
      refine ⟨by omega, query', docs', doc', ?_, ?_, h4, h5, h6, h7⟩
      · rw [show e.2.1.1 - i0 = (e.2.1.1 - (i0 + 1)) + 1 by omega,
          List.getElem?_cons_succ]
        exact h2
      · rw [show e.2.1.1 - i0 = (e.2.1.1 - (i0 + 1)) + 1 by omega,
          List.getElem?_cons_succ]
        exact h3

theorem rowPromptsTitle_pairwise (tok : SentTok) (query : String) (qi : Nat) :
    ∀ (ds : List String) (di : Nat),
      List.Pairwise (fun a b => a.2.1.2 < b.2.1.2)
        (rowPromptsTitle tok query qi ds di)
  | [], di => by simp [rowPromptsTitle]
  | doc :: ds, di => by
    unfold rowPromptsTitle
    by_cases hskip : (pyStrip doc).length = 0
    · rw [if_pos hskip]
      exact rowPromptsTitle_pairwise tok query qi ds (di + 1)
    · rw [if_neg hskip]
      refine List.Pairwise.cons ?_ (rowPromptsTitle_pairwise tok query qi ds (di + 1))
      intro b hb
      have := (rowPromptsTitle_mem tok query qi ds (di + 1) hb).2.1
      show di < b.2.1.2
      omega

theorem buildPromptsTitle_pairwise (tok : SentTok) :
    ∀ (qs : List String) (cs : List (List String)) (i0 : Nat),
      List.Pairwise (fun a b => idxLex a.2.1 b.2.1)
        (buildPromptsTitle tok qs cs i0)
  | [], cs, i0 => by simp [buildPromptsTitle]
  | q :: qs, [], i0 => by simp [buildPromptsTitle]
  | query :: qs, docs :: cs, i0 => by
    unfold buildPromptsTitle
    rw [List.pairwise_append]
    refine ⟨?_, buildPromptsTitle_pairwise tok qs cs (i0 + 1), ?_⟩
    · apply List.Pairwise.imp_of_mem ?_ (rowPromptsTitle_pairwise tok query i0 docs 0)
      intro a b ha hb hab
      have ha1 := (rowPromptsTitle_mem tok query i0 docs 0 ha).1
      have hb1 := (rowPromptsTitle_mem tok query i0 docs 0 hb).1
      exact Or.inr ⟨by rw [ha1, hb1], hab⟩
    · intro a ha b hb
      have ha1 := (rowPromptsTitle_mem tok query i0 docs 0 ha).1
      have hb1 := (buildPromptsTitle_mem tok qs cs (i0 + 1) hb).1
      exact Or.inl (by omega)

theorem mappingTitle_pairwise (tok : SentTok) (queries : List String)
    (contexts : List (List String)) :
    List.Pairwise idxLex (mappingTitle tok queries contexts) := by
  unfold mappingTitle
  rw [List.pairwise_map]
  exact buildPromptsTitle_pairwise tok queries contexts 0

theorem mappingTitle_valid (tok : SentTok) (queries : List String)
    (contexts : List (List String)) :
    ∀ m ∈ mappingTitle tok queries contexts,
      ∃ row : List String, contexts[m.1]? = some row ∧ m.2 < row.length := by
  intro m hm
  obtain ⟨e, he, hem⟩ := List.mem_map.mp hm
  obtain ⟨_, query, docs, doc, _, h3, h4, _, _, _⟩ :=
    buildPromptsTitle_mem tok _ _ _ he
  subst hem
  simp only [Nat.sub_zero] at h3
  exact ⟨docs, h3, (List.getElem?_eq_some.mp h4).1⟩

theorem mappingTitle_getElem {tok : SentTok} {queries : List String}
    {contexts : List (List String)} {k q d : Nat}
    (hk : (mappingTitle tok queries contexts)[k]? = some (q, d)) :
    ∃ query docs doc, queries[q]? = some query ∧ contexts[q]? = some docs ∧
      docs[d]? = some doc ∧ (pyStrip doc).length ≠ 0 ∧
      (allPromptsTitle tok queries contexts)[k]? =
        some (rewritePromptTitle query (split_title_content tok doc).1
          (split_title_content tok doc).2) ∧
      (titlesTitle tok queries contexts)[k]? =
        some (split_title_content tok doc).1 := by
  unfold mappingTitle at hk
  rw [List.getElem?_map] at hk
  cases he : (buildPromptsTitle tok queries contexts 0)[k]? with
  | none => rw [he] at hk; simp at hk
  | some e =>
    rw [he] at hk
    have hem : e.2.1 = (q, d) := by simpa using hk
    have hmem : e ∈ buildPromptsTitle tok queries contexts 0 := by
      obtain ⟨hlt, hval⟩ := List.getElem?_eq_some.mp he
      exact hval ▸ List.getElem_mem hlt
    obtain ⟨_, query, docs, doc, h2, h3, h4, h5, h6, h7⟩ :=
      buildPromptsTitle_mem tok _ _ _ hmem
    simp only [Nat.sub_zero] at h2 h3
    rw [hem] at h2 h3 h4
    refine ⟨query, docs, doc, h2, h3, (by simpa using h4), h5, ?_, ?_⟩
    · unfold allPromptsTitle
      rw [List.getElem?_map, he]
      simp [h6]
    · unfold titlesTitle
      rw [List.getElem?_map, he]
      simp [h7]

/-! ### Assembly of the title variant -/

/-- The `rewritten_contents` list produced by the generation loop of the
title variant. -/
def contentsTitle (rt : TitleRewriter) (tok : SentTok) (gen : Oracle)
    (queries : List String) (contexts : List (List String)) : List String :=
  (genLoop gen ⟨rt.max_new_tokens⟩
    (chunksOf rt.batch_size (allPromptsTitle tok queries contexts))).1

theorem processTitle_eq {rt : TitleRewriter} {tok : SentTok} {gen : Oracle}
    (hg : GoodGen gen) (hb : 1 ≤ rt.batch_size) (st : GenState)
    (contexts : List (List String)) (queries : List String) :
    ∃ rc, reconstructLoop contexts
        (fun passage_idx original_text => do
          let gentext ← (contentsTitle rt tok gen queries contexts)[passage_idx]?
          let title ← (titlesTitle tok queries contexts)[passage_idx]?
          some (titleValue rt.concatenate_original original_text title gentext))
        (mappingTitle tok queries contexts) 0
        (contexts.map (fun docs => List.replicate docs.length "")) = some rc ∧
      rc.map List.length = contexts.map List.length ∧
      LLMRewriterWithTitle.process rt tok gen st contexts queries =
        (some (fillSkipped contexts rc), st,
          (chunksOf rt.batch_size (allPromptsTitle tok queries contexts)).map
            (fun c => (rt.max_new_tokens, c))) := by
  have hlen : (contentsTitle rt tok gen queries contexts).length =
      (allPromptsTitle tok queries contexts).length := by
    unfold contentsTitle
    exact genLoop_fst_length hg hb _ _
  have hmlen : (mappingTitle tok queries contexts).length =
      (allPromptsTitle tok queries contexts).length := by
    unfold mappingTitle allPromptsTitle
    simp
  have htlen : (titlesTitle tok queries contexts).length =
      (allPromptsTitle tok queries contexts).length := by
    unfold titlesTitle allPromptsTitle
    simp
  obtain ⟨rc, hrec, hshape⟩ := reconstructLoop_some contexts
    (fun passage_idx original_text => do
      let gentext ← (contentsTitle rt tok gen queries contexts)[passage_idx]?
      let title ← (titlesTitle tok queries contexts)[passage_idx]?
      some (titleValue rt.concatenate_original original_text title gentext))
    (mappingTitle tok queries contexts) 0
    (contexts.map (fun docs => List.replicate docs.length ""))
    (acc0_shape contexts) (mappingTitle_valid tok queries contexts)
    (fun k hk orig => by
      have hklt : 0 + k < (contentsTitle rt tok gen queries contexts).length := by
        omega
      have hklt' : 0 + k < (titlesTitle tok queries contexts).length := by
        omega
      simp only [List.getElem?_eq_getElem hklt, List.getElem?_eq_getElem hklt',
        Option.some_bind, Option.bind_eq_bind, Option.isSome_some])
  refine ⟨rc, hrec, hshape, ?_⟩
  have hrec' := hrec
  unfold contentsTitle at hrec'
  unfold LLMRewriterWithTitle.process
  simp only
  rw [hrec']
  have htr := genLoop_snd gen (⟨rt.max_new_tokens⟩ : GenState)
    (chunksOf rt.batch_size (allPromptsTitle tok queries contexts))
  rw [htr]

/-! ### Lemmas about combined mode -/

theorem combinedPrompts_length :
    ∀ (qs : List String) (cs : List (List String)),
      (combinedPrompts qs cs).length = min qs.length cs.length
  | [], cs => by simp [combinedPrompts]
  | q :: qs, [] => by simp [combinedPrompts]
  | q :: qs, docs :: cs => by
    simp only [combinedPrompts, List.length_cons,
      combinedPrompts_length qs cs]
    omega

theorem combinedPrompts_getElem :
    ∀ (qs : List String) (cs : List (List String)) (q : Nat)
      (query : String) (docs : List String),
      qs[q]? = some query → cs[q]? = some docs →
      (combinedPrompts qs cs)[q]? =
        some (rewritePrompt query (combinedPassage docs))
  | [], cs, q, query, docs => by simp
  | x :: qs, [], q, query, docs => by simp
  | x :: qs, d :: cs, 0, query, docs => by
    intro h1 h2
    simp only [List.getElem?_cons_zero] at h1 h2
    cases Option.some_inj.mp h1
    cases Option.some_inj.mp h2
    unfold combinedPrompts
    rw [List.getElem?_cons_zero]
  | x :: qs, d :: cs, q + 1, query, docs => by
    intro h1 h2
    simp only [List.getElem?_cons_succ] at h1 h2
    unfold combinedPrompts
    rw [List.getElem?_cons_succ]
    exact combinedPrompts_getElem qs cs q query docs h1 h2

theorem combinedPassageParts_all_empty :
    ∀ (docs : List String) (i : Nat), (∀ doc ∈ docs, pyStrip doc = "") →
      combinedPassageParts docs i = []
  | [], i, _ => rfl
  | doc :: ds, i, h => by
    unfold combinedPassageParts
    rw [if_pos (by rw [(h doc (List.mem_cons_self _ _))]; rfl)]
    exact combinedPassageParts_all_empty ds (i + 1)
      (fun d hd => h d (List.mem_cons_of_mem _ hd))

theorem combinedPassageParts_length :
    ∀ (docs : List String) (i : Nat),
      (combinedPassageParts docs i).length =
        (docs.filter (fun doc => !((pyStrip doc).length == 0))).length
  | [], i => rfl
  | doc :: ds, i => by
    unfold combinedPassageParts
    by_cases hskip : (pyStrip doc).length = 0
    · rw [if_pos hskip]
      rw [List.filter_cons_of_neg (by simp [hskip])]
      exact combinedPassageParts_length ds (i + 1)
    · rw [if_neg hskip]
      rw [List.filter_cons_of_pos (by simp [hskip])]
      simp only [List.length_cons, combinedPassageParts_length ds (i + 1)]

theorem reconstructComb_some (contexts : List (List String))
    (concatenate_original : Bool) :
    ∀ (outs : List String) (i0 : Nat), i0 + outs.length ≤ contexts.length →
      ∃ out, reconstructComb contexts concatenate_original outs i0 = some out ∧
        out.length = outs.length
  | [], i0, _ => ⟨[], rfl, rfl⟩
  | g :: rest, i0, h => by
    have hi0 : i0 < contexts.length := by
      simp only [List.length_cons] at h
      omega
    obtain ⟨tl, htl, hlen⟩ := reconstructComb_some contexts concatenate_original
      rest (i0 + 1) (by simp only [List.length_cons] at h; omega)
    have hdocs : contexts[i0]? = some contexts[i0] :=
      List.getElem?_eq_getElem hi0
    unfold reconstructComb
    by_cases hne : (pyStrip g).length > 0
    · rw [if_pos hne]
      cases concatenate_original with
      | true =>
        rw [if_pos rfl, hdocs]
        simp only [Option.bind_eq_bind, Option.some_bind]
        rw [htl]
        simp only [Option.some_bind]
        exact ⟨_, rfl, by simp [hlen]⟩
      | false =>
        rw [if_neg (by simp)]
        simp only [Option.bind_eq_bind, Option.some_bind]
        rw [htl]
        simp only [Option.some_bind]
        exact ⟨_, rfl, by simp [hlen]⟩
    · rw [if_neg hne, hdocs]
      simp only [Option.bind_eq_bind, Option.some_bind]
      rw [htl]
      simp only [Option.some_bind]
      exact ⟨_, rfl, by simp [hlen]⟩

/-- Shape of one step of the combined-mode reconstruction. -/
theorem reconstructComb_cons {contexts : List (List String)}
    {co : Bool} {g0 : String} {rest : List String} {i0 : Nat}
    {out : List (List String)}
    (h : reconstructComb contexts co (g0 :: rest) i0 = some out) :
    ∃ entry tl, reconstructComb contexts co rest (i0 + 1) = some tl ∧
      out = entry :: tl ∧
      (((pyStrip g0).length > 0 ∧ co = false ∧ entry = [g0]) ∨
       ((pyStrip g0).length > 0 ∧ co = true ∧ ∃ docs,
         contexts[i0]? = some docs ∧
         entry = [originalCombined docs ++ "\n\nRefined version:\n" ++ g0]) ∨
       ((pyStrip g0).length = 0 ∧ contexts[i0]? = some entry)) := by
  unfold reconstructComb at h
  by_cases hg : (pyStrip g0).length > 0
  · rw [if_pos hg] at h
    cases co with
    | true =>
      rw [if_pos rfl] at h
      simp only [Option.bind_eq_bind] at h
      rw [Option.bind_eq_some] at h
      obtain ⟨docs, hdocs, h2⟩ := h
      rw [Option.some_bind, Option.bind_eq_some] at h2
      obtain ⟨tl, htl, hout⟩ := h2
      exact ⟨[originalCombined docs ++ "\n\nRefined version:\n" ++ g0], tl, htl,
        (Option.some_inj.mp hout).symm,
        Or.inr (Or.inl ⟨hg, rfl, docs, hdocs, rfl⟩)⟩
    | false =>
      rw [if_neg (by simp)] at h
      simp only [Option.bind_eq_bind, Option.some_bind] at h
      rw [Option.bind_eq_some] at h
      obtain ⟨tl, htl, hout⟩ := h
      exact ⟨[g0], tl, htl, (Option.some_inj.mp hout).symm,
        Or.inl ⟨hg, rfl, rfl⟩⟩
  · rw [if_neg hg] at h
    simp only [Option.bind_eq_bind] at h
    rw [Option.bind_eq_some] at h
    obtain ⟨entry, hentry, h2⟩ := h
    rw [Option.bind_eq_some] at h2
    obtain ⟨tl, htl, hout⟩ := h2
    exact ⟨entry, tl, htl, (Option.some_inj.mp hout).symm,
      Or.inr (Or.inr ⟨by omega, hentry⟩)⟩

theorem reconstructComb_getElem (contexts : List (List String))
    (concatenate_original : Bool) :
    ∀ (outs : List String) (i0 : Nat) (out : List (List String)) (k : Nat)
      (g : String),
      reconstructComb contexts concatenate_original outs i0 = some out →
      outs[k]? = some g →
      ((pyStrip g).length > 0 ∧ concatenate_original = false ∧
        out[k]? = some [g]) ∨
      ((pyStrip g).length > 0 ∧ concatenate_original = true ∧
        ∃ docs, contexts[i0 + k]? = some docs ∧
          out[k]? = some [originalCombined docs ++ "\n\nRefined version:\n" ++ g]) ∨
      ((pyStrip g).length = 0 ∧ ∃ docs, contexts[i0 + k]? = some docs ∧
        out[k]? = some docs)
  | [], i0, out, k, g => by
    intro _ hk
    simp at hk
  | g0 :: rest, i0, out, k, g => by
    intro h hk
    obtain ⟨entry, tl, htl, rfl, hcase⟩ := reconstructComb_cons h
    cases k with
    | zero =>
      rw [List.getElem?_cons_zero] at hk
      cases Option.some_inj.mp hk
      rw [Nat.add_zero]
      rcases hcase with ⟨h1, h2, h3⟩ | ⟨h1, h2, docs, h3, h4⟩ | ⟨h1, h2⟩
      · exact Or.inl ⟨h1, h2, by rw [List.getElem?_cons_zero, h3]⟩
      · exact Or.inr (Or.inl ⟨h1, h2, docs, h3,
          by rw [List.getElem?_cons_zero, h4]⟩)
      · exact Or.inr (Or.inr ⟨h1, entry, h2,
          by rw [List.getElem?_cons_zero]⟩)
    | succ k' =>
      rw [List.getElem?_cons_succ] at hk
      have := reconstructComb_getElem contexts concatenate_original rest
        (i0 + 1) tl k' g htl hk
      rw [List.getElem?_cons_succ,
        show i0 + (k' + 1) = i0 + 1 + k' by omega]
      exact this

/-! ### Assembly of combined mode -/

/-- The `rewritten_combined` list produced by the generation loop of combined
mode. -/
def rewrittenComb (r : Rewriter) (gen : Oracle) (queries : List String)
    (contexts : List (List String)) : List String :=
  (genLoop gen ⟨r.max_new_tokens⟩
    (chunksOf r.batch_size (combinedPrompts queries contexts))).1

theorem processComb_eq {r : Rewriter} {gen : Oracle} (hg : GoodGen gen)
    (hb : 1 ≤ r.batch_size) (st : GenState) (contexts : List (List String))
    (queries : List String) :
    ∃ rc, reconstructComb contexts r.concatenate_original
        (rewrittenComb r gen queries contexts) 0 = some rc ∧
      rc.length = (rewrittenComb r gen queries contexts).length ∧
      LLMRewriter.processComb r gen st contexts queries =
        (some rc, st,
          (chunksOf r.batch_size (combinedPrompts queries contexts)).map
            (fun c => (r.max_new_tokens, c))) := by
  have hlen : (rewrittenComb r gen queries contexts).length =
      (combinedPrompts queries contexts).length := by
    unfold rewrittenComb
    exact genLoop_fst_length hg hb _ _
  obtain ⟨rc, hrec, hrclen⟩ := reconstructComb_some contexts
    r.concatenate_original (rewrittenComb r gen queries contexts) 0
    (by rw [hlen, combinedPrompts_length]; omega)
  refine ⟨rc, hrec, hrclen, ?_⟩
  have hrec' := hrec
  unfold rewrittenComb at hrec'
  unfold LLMRewriter.processComb
  simp only
  rw [hrec']
  have htr := genLoop_snd gen (⟨r.max_new_tokens⟩ : GenState)
    (chunksOf r.batch_size (combinedPrompts queries contexts))
  rw [htr]

/-! ### Trace helpers (hold on both the success and the exception path) -/

theorem processSep_trace (r : Rewriter) (gen : Oracle) (st : GenState)
    (contexts : List (List String)) (queries : List String) :
    (LLMRewriter.processSep r gen st contexts queries).2.2 =
      (chunksOf r.batch_size (allPromptsSep queries contexts)).map
        (fun c => (r.max_new_tokens, c)) := by
  unfold LLMRewriter.processSep
  simp only
  split <;> exact genLoop_snd _ _ _

theorem processComb_trace (r : Rewriter) (gen : Oracle) (st : GenState)
    (contexts : List (List String)) (queries : List String) :
    (LLMRewriter.processComb r gen st contexts queries).2.2 =
      (chunksOf r.batch_size (combinedPrompts queries contexts)).map
        (fun c => (r.max_new_tokens, c)) := by
  unfold LLMRewriter.processComb
  simp only
  split <;> exact genLoop_snd _ _ _

theorem processTitle_trace (rt : TitleRewriter) (tok : SentTok) (gen : Oracle)
    (st : GenState) (contexts : List (List String)) (queries : List String) :
    (LLMRewriterWithTitle.process rt tok gen st contexts queries).2.2 =
      (chunksOf rt.batch_size (allPromptsTitle tok queries contexts)).map
        (fun c => (rt.max_new_tokens, c)) := by
  unfold LLMRewriterWithTitle.process
  simp only
  split <;> exact genLoop_snd _ _ _

/-- A pointwise collaborator (one output computed per prompt) makes the
batched loop behave as a map over the prompt list. -/
theorem genLoop_pointwise {gen : Oracle} {f : String → String}
    (hf : ∀ ps, gen ps = Except.ok (ps.map f)) (st : GenState) {b : Nat}
    (hb : 1 ≤ b) (l : List String) :
    (genLoop gen st (chunksOf b l)).1 = l.map f := by
  rw [genLoop_fst]
  have h1 : (chunksOf b l).map (chunkOut gen) =
      (chunksOf b l).map (fun c => c.map f) := by
    apply List.map_congr_left
    intro c _
    unfold chunkOut
    rw [hf c]
  rw [h1, ← List.map_flatten, chunksOf_flatten hb]

/-! ### The claims -/

/-- C9: constructing `LLMRewriter` or `LLMRewriterWithTitle` with the default
`generator=None` always raises (the constructor reads
`generator.model_name` unconditionally), while any provided generator makes
construction succeed: the collaborator is required at construction time even
though the parameter is declared optional. -/
theorem C9_constructor_requires_generator (batch_size max_new_tokens : Nat)
    (process_separately concatenate_original : Bool) :
    LLMRewriter.init none batch_size max_new_tokens process_separately
      concatenate_original = Except.error () ∧
    LLMRewriterWithTitle.init none batch_size max_new_tokens
      concatenate_original = Except.error () ∧
    (∀ g : Generator, ∃ r, LLMRewriter.init (some g) batch_size max_new_tokens
      process_separately concatenate_original = Except.ok r) ∧
    (∀ g : Generator, ∃ rt, LLMRewriterWithTitle.init (some g) batch_size
      max_new_tokens concatenate_original = Except.ok rt) :=
  ⟨rfl, rfl, fun _ => ⟨_, rfl⟩, fun _ => ⟨_, rfl⟩⟩

/-- C10: in combined mode exactly one prompt is submitted per query (the
submitted chunks flatten to one prompt per `zip(queries, contexts)` pair, in
order), a query whose documents are all empty/whitespace-only is still sent —
with an empty passage slot — and empty documents are omitted from the
labelled combined passage (the labelled parts count only the non-empty
documents). -/
theorem C10_combined_prompt_per_query (r : Rewriter) (gen : Oracle)
    (st : GenState) (contexts : List (List String)) (queries : List String)
    (hb : 1 ≤ r.batch_size) (hsepF : r.process_separately = false)
    (hlen : queries.length = contexts.length) :
    (((LLMRewriter.process r gen st contexts queries).2.2).map
      Prod.snd).flatten = combinedPrompts queries contexts ∧
    (combinedPrompts queries contexts).length = queries.length ∧
    (∀ (q : Nat) (query : String) (docs : List String),
      queries[q]? = some query → contexts[q]? = some docs →
      (combinedPrompts queries contexts)[q]? =
        some (rewritePrompt query (combinedPassage docs))) ∧
    (∀ docs : List String, (∀ doc ∈ docs, pyStrip doc = "") →
      combinedPassage docs = "") ∧
    (∀ docs : List String, (combinedPassageParts docs 0).length =
      (docs.filter (fun doc => !((pyStrip doc).length == 0))).length) := by
  refine ⟨?_, ?_,
    fun q query docs h1 h2 => combinedPrompts_getElem queries contexts q query docs h1 h2,
    ?_, ?_⟩
  · unfold LLMRewriter.process
    rw [hsepF]
    simp only [Bool.false_eq_true, if_false]
    rw [processComb_trace, List.map_map]
    have : (Prod.snd ∘ fun c => (r.max_new_tokens, c)) = (id : List String → List String) := rfl
    rw [this, List.map_id]
    exact chunksOf_flatten hb _
  · rw [combinedPrompts_length, hlen, Nat.min_self]
  · intro docs h
    unfold combinedPassage
    rw [combinedPassageParts_all_empty docs 0 h]
    rfl
  · intro docs
    exact combinedPassageParts_length docs 0

/-- C5: separate mode submits exactly `ceil(N/B)` chunks of at most `B`
consecutive prompts each, in order (their concatenation is the original
prompt list), and with a pointwise collaborator the concatenated outputs are
the map of that collaborator over the prompts, so the i-th rewritten text
corresponds to the i-th prompt. -/
theorem C5_batching (r : Rewriter) (gen : Oracle) (st : GenState)
    (contexts : List (List String)) (queries : List String)
    (hb : 1 ≤ r.batch_size) (hsep : r.process_separately = true) :
    ((LLMRewriter.process r gen st contexts queries).2.2).length =
      ceilDiv (allPromptsSep queries contexts).length r.batch_size ∧
    (((LLMRewriter.process r gen st contexts queries).2.2).map
      Prod.snd).flatten = allPromptsSep queries contexts ∧
    (∀ p ∈ (LLMRewriter.process r gen st contexts queries).2.2,
      p.2.length ≤ r.batch_size) ∧
    (∀ f : String → String, (∀ ps, gen ps = Except.ok (ps.map f)) →
      passagesSep r gen queries contexts =
        (allPromptsSep queries contexts).map f) := by
  have hproc : (LLMRewriter.process r gen st contexts queries).2.2 =
      (chunksOf r.batch_size (allPromptsSep queries contexts)).map
        (fun c => (r.max_new_tokens, c)) := by
    unfold LLMRewriter.process
    rw [hsep]
    simp only [if_true]
    exact processSep_trace r gen st contexts queries
  refine ⟨?_, ?_, ?_, ?_⟩
  · rw [hproc, List.length_map]
    exact chunksOf_length hb _
  · rw [hproc, List.map_map]
    have : (Prod.snd ∘ fun c => (r.max_new_tokens, c)) =
        (id : List String → List String) := rfl
    rw [this, List.map_id]
    exact chunksOf_flatten hb _
  · intro p hp
    rw [hproc] at hp
    obtain ⟨c, hc, rfl⟩ := List.mem_map.mp hp
    exact chunksOf_mem_length_le hb _ c hc
  · intro f hf
    unfold passagesSep
    exact genLoop_pointwise hf _ hb _

/-- C2: on every call to `_process` (both variants, both modes), the
collaborator's `max_new_tokens` is set to the rewriter's configured value for
the duration of the call (every collaborator invocation in the trace carries
exactly that value) and is restored to its prior value on exit.  Under the
collaborator contract (`GoodGen`: one output per prompt on a normal return,
any batch may instead raise) no exception escapes `_process`: exceptions
raised by `generator.generate` are caught inside the loop, the call returns
normally, and the restore still runs — this includes the case of a
collaborator that raises on every batch. -/
theorem C2_max_new_tokens_scoped (r : Rewriter) (rt : TitleRewriter)
    (tok : SentTok) (gen : Oracle) (st : GenState)
    (contexts : List (List String)) (queries : List String)
    (hg : GoodGen gen) (hb : 1 ≤ r.batch_size) (hbt : 1 ≤ rt.batch_size) :
    (∃ out, (LLMRewriter.process r gen st contexts queries).1 = some out) ∧
    (LLMRewriter.process r gen st contexts queries).2.1 = st ∧
    (∀ p ∈ (LLMRewriter.process r gen st contexts queries).2.2,
      p.1 = r.max_new_tokens) ∧
    (∃ outT, (LLMRewriterWithTitle.process rt tok gen st contexts queries).1 =
      some outT) ∧
    (LLMRewriterWithTitle.process rt tok gen st contexts queries).2.1 = st ∧
    (∀ p ∈ (LLMRewriterWithTitle.process rt tok gen st contexts queries).2.2,
      p.1 = rt.max_new_tokens) := by
  obtain ⟨rcT, _, _, heqT⟩ := processTitle_eq hg hbt st contexts queries
  have hplain : ∃ out, (LLMRewriter.process r gen st contexts queries).1 =
      some out ∧ (LLMRewriter.process r gen st contexts queries).2.1 = st := by
    unfold LLMRewriter.process
    cases hsep : r.process_separately with
    | true =>
      simp only [if_true]
      obtain ⟨rc, _, _, heq⟩ := processSep_eq hg hb st contexts queries
      exact ⟨fillSkipped contexts rc, by rw [heq], by rw [heq]⟩
    | false =>
      simp only [Bool.false_eq_true, if_false]
      obtain ⟨rc, _, _, heq⟩ := processComb_eq hg hb st contexts queries
      exact ⟨rc, by rw [heq], by rw [heq]⟩
  obtain ⟨out, hout, hst⟩ := hplain
  refine ⟨⟨out, hout⟩, hst, ?_, ⟨fillSkipped contexts rcT, by rw [heqT]⟩,
    by rw [heqT], ?_⟩
  · have htr : (LLMRewriter.process r gen st contexts queries).2.2 =
        (chunksOf r.batch_size (if r.process_separately then
          allPromptsSep queries contexts else
          combinedPrompts queries contexts)).map
          (fun c => (r.max_new_tokens, c)) := by
      unfold LLMRewriter.process
      cases hsep : r.process_separately with
      | true =>
        simp only [if_true]
        exact processSep_trace r gen st contexts queries
      | false =>
        simp only [Bool.false_eq_true, if_false]
        exact processComb_trace r gen st contexts queries
    rw [htr]
    intro p hp
    obtain ⟨c, _, rfl⟩ := List.mem_map.mp hp
    rfl
  · rw [heqT]
    intro p hp
    obtain ⟨c, _, rfl⟩ := List.mem_map.mp hp
    rfl

/-- C1: for equal-length inputs, separate mode and the title variant return
(under the collaborator contract) a context set with one entry per query and
exactly the input's per-query document counts: no document dropped or
added. -/
theorem C1_shape_preserved (r : Rewriter) (rt : TitleRewriter) (tok : SentTok)
    (gen : Oracle) (st : GenState) (contexts : List (List String))
    (queries : List String) (hg : GoodGen gen) (hb : 1 ≤ r.batch_size)
    (hbt : 1 ≤ rt.batch_size) (hsep : r.process_separately = true)
    (hlen : contexts.length = queries.length) :
    (∃ out, (LLMRewriter.process r gen st contexts queries).1 = some out ∧
      out.length = queries.length ∧
      out.map List.length = contexts.map List.length) ∧
    (∃ outT, (LLMRewriterWithTitle.process rt tok gen st contexts queries).1 =
      some outT ∧ outT.length = queries.length ∧
      outT.map List.length = contexts.map List.length) := by
  obtain ⟨rc, hrec, hshape, heq⟩ := processSep_eq hg hb st contexts queries
  obtain ⟨rcT, hrecT, hshapeT, heqT⟩ := processTitle_eq hg hbt st contexts queries
  constructor
  · refine ⟨fillSkipped contexts rc, ?_, ?_, fillSkipped_shape contexts rc hshape⟩
    · unfold LLMRewriter.process
      rw [hsep]
      simp only [if_true]
      rw [heq]
    · have h1 := congrArg List.length (fillSkipped_shape contexts rc hshape)
      simpa [hlen] using h1
  · refine ⟨fillSkipped contexts rcT, by rw [heqT], ?_,
      fillSkipped_shape contexts rcT hshapeT⟩
    have h1 := congrArg List.length (fillSkipped_shape contexts rcT hshapeT)
    simpa [hlen] using h1

/-- The value of one output cell of separate mode, for a document that was
prompted (present in `query_doc_mapping`). -/
theorem sepCell {r : Rewriter} {gen : Oracle} {queries : List String}
    {contexts rc : List (List String)}
    (hrec : reconstructLoop contexts
      (fun passage_idx original_text =>
        ((passagesSep r gen queries contexts)[passage_idx]?).map
          (sepValue r.concatenate_original original_text))
      (mappingSep queries contexts) 0
      (contexts.map (fun docs => List.replicate docs.length "")) = some rc)
    {k q d : Nat} (hk : (mappingSep queries contexts)[k]? = some (q, d)) :
    ∃ doc g, get2 contexts q d = some doc ∧
      (passagesSep r gen queries contexts)[k]? = some g ∧
      get2 (fillSkipped contexts rc) q d =
        some (if sepValue r.concatenate_original doc g = "" then doc
          else sepValue r.concatenate_original doc g) := by
  obtain ⟨row, orig, v, hrow, horig, hfv, hget⟩ :=
    reconstructLoop_get contexts _ (mappingSep queries contexts) 0 _ rc k q d
      hrec hk (mapping_later_ne (mappingSep_pairwise queries contexts) hk)
  simp only [Nat.zero_add] at hfv
  rw [Option.map_eq_some'] at hfv
  obtain ⟨g, hpg, hvg⟩ := hfv
  have hc : get2 contexts q d = some orig := by
    unfold get2
    rw [hrow, Option.some_bind]
    exact horig
  refine ⟨orig, g, hc, hpg, ?_⟩
  rw [fillSkipped_get2 hc hget, hvg]

/-- C4: in separate mode, a prompted document whose generated text is
non-empty after trimming becomes, with `concatenate_original=true`, the
original text followed by the separator `"\n\nRefined version: "` followed by
the trimmed rewritten text (so the original is a prefix of the output cell),
and with `concatenate_original=false` the trimmed rewritten text alone. -/
theorem C4_concatenate_or_replace (r : Rewriter) (gen : Oracle)
    (st : GenState) (contexts : List (List String)) (queries : List String)
    (hg : GoodGen gen) (hb : 1 ≤ r.batch_size)
    (hsep : r.process_separately = true) :
    ∃ out, (LLMRewriter.process r gen st contexts queries).1 = some out ∧
      ∀ (k q d : Nat) (g : String),
        (mappingSep queries contexts)[k]? = some (q, d) →
        (passagesSep r gen queries contexts)[k]? = some g →
        pyStrip g ≠ "" →
        ∃ doc, get2 contexts q d = some doc ∧
          get2 out q d = some (if r.concatenate_original then
            doc ++ "\n\nRefined version: " ++ pyStrip g else pyStrip g) := by
  obtain ⟨rc, hrec, hshape, heq⟩ := processSep_eq hg hb st contexts queries
  refine ⟨fillSkipped contexts rc, ?_, ?_⟩
  · unfold LLMRewriter.process
    rw [hsep]
    simp only [if_true]
    rw [heq]
  · intro k q d g hk hpg hne
    obtain ⟨doc, g', hc, hpg', hcell⟩ := sepCell hrec hk
    rw [hpg] at hpg'
    cases Option.some_inj.mp hpg'
    have hlen : (pyStrip g).length > 0 := by
      rcases Nat.eq_zero_or_pos (pyStrip g).length with h0 | h0
      · exact absurd ((string_length_eq_zero _).mp h0) hne
      · exact h0
    refine ⟨doc, hc, ?_⟩
    cases hco : r.concatenate_original with
    | true =>
      rw [hco] at hcell
      have hval : sepValue true doc g =
          doc ++ "\n\nRefined version: " ++ pyStrip g := by
        simp only [sepValue]
        rw [if_pos hlen]
        simp
      rw [hcell, hval,
        if_neg (append_ne_empty_mid doc _ (pyStrip g) (by decide))]
      simp
    | false =>
      rw [hco] at hcell
      have hval : sepValue false doc g = pyStrip g := by
        simp only [sepValue]
        rw [if_pos hlen]
        simp
      rw [hcell, hval, if_neg hne]
      simp

/-- C3: in separate mode, a prompted document whose generated text trims to
the empty string — in particular any document of a batch on which the
collaborator raised, since the caught exception substitutes `""` for that
whole batch — comes out as exactly the original input text; a collaborator
exception never escapes `_process` (the call still returns a result) and
every batch is still submitted (the trace is the full chunk list, whatever
the collaborator does). -/
theorem C3_empty_or_failed_falls_back (r : Rewriter) (gen : Oracle)
    (st : GenState) (contexts : List (List String)) (queries : List String)
    (hg : GoodGen gen) (hb : 1 ≤ r.batch_size)
    (hsep : r.process_separately = true) :
    ∃ out, (LLMRewriter.process r gen st contexts queries).1 = some out ∧
      (((LLMRewriter.process r gen st contexts queries).2.2).map
        Prod.snd) = chunksOf r.batch_size (allPromptsSep queries contexts) ∧
      (∀ (k q d : Nat) (g : String),
        (mappingSep queries contexts)[k]? = some (q, d) →
        (passagesSep r gen queries contexts)[k]? = some g →
        pyStrip g = "" →
        get2 out q d = get2 contexts q d) ∧
      (∀ (k q d : Nat),
        (mappingSep queries contexts)[k]? = some (q, d) →
        gen (((allPromptsSep queries contexts).drop
          (r.batch_size * (k / r.batch_size))).take r.batch_size) =
          Except.error () →
        get2 out q d = get2 contexts q d) := by
  obtain ⟨rc, hrec, hshape, heq⟩ := processSep_eq hg hb st contexts queries
  have hfb : ∀ (k q d : Nat) (g : String),
      (mappingSep queries contexts)[k]? = some (q, d) →
      (passagesSep r gen queries contexts)[k]? = some g →
      pyStrip g = "" →
      get2 (fillSkipped contexts rc) q d = get2 contexts q d := by
    intro k q d g hk hpg hempty
    obtain ⟨doc, g', hc, hpg', hcell⟩ := sepCell hrec hk
    rw [hpg] at hpg'
    cases Option.some_inj.mp hpg'
    have hval : sepValue r.concatenate_original doc g = doc := by
      simp only [sepValue]
      rw [hempty]
      rw [if_neg (by decide)]
    rw [hc, hcell, hval, ite_self]
  refine ⟨fillSkipped contexts rc, ?_, ?_, hfb, ?_⟩
  · unfold LLMRewriter.process
    rw [hsep]
    simp only [if_true]
    rw [heq]
  · unfold LLMRewriter.process
    rw [hsep]
    simp only [if_true]
    rw [processSep_trace, List.map_map]
    have : (Prod.snd ∘ fun c => (r.max_new_tokens, c)) =
        (id : List String → List String) := rfl
    rw [this, List.map_id]
  · intro k q d hk herr
    have hklt : k < (allPromptsSep queries contexts).length := by
      have h1 : k < (mappingSep queries contexts).length :=
        (List.getElem?_eq_some.mp hk).1
      have h2 : (mappingSep queries contexts).length =
          (allPromptsSep queries contexts).length := by
        unfold mappingSep allPromptsSep
        simp
      omega
    have hpg : (passagesSep r gen queries contexts)[k]? = some "" := by
      unfold passagesSep
      rw [genLoop_fst]
      exact genOuts_err_get hg hb _ k hklt herr
    exact hfb k q d "" hk hpg rfl

/-- C6: an empty or whitespace-only input document is never prompted: it has
no entry in the query/doc mapping, every prompt ever submitted to the
collaborator (in separate mode and in the title variant) is built from some
document that is non-empty after trimming, and the output cell at the empty
document's position is the original document text unchanged. -/
theorem C6_empty_docs_passed_through (r : Rewriter) (rt : TitleRewriter)
    (tok : SentTok) (gen : Oracle) (st : GenState)
    (contexts : List (List String)) (queries : List String)
    (hg : GoodGen gen) (hb : 1 ≤ r.batch_size) (hbt : 1 ≤ rt.batch_size)
    (hsep : r.process_separately = true) (q d : Nat) (doc : String)
    (hdoc : get2 contexts q d = some doc) (hempty : pyStrip doc = "") :
    ((q, d) ∉ mappingSep queries contexts) ∧
    (∀ p ∈ (LLMRewriter.process r gen st contexts queries).2.2, ∀ pr ∈ p.2,
      ∃ (q' d' : Nat) (query doc' : String), queries[q']? = some query ∧
        get2 contexts q' d' = some doc' ∧ pyStrip doc' ≠ "" ∧
        pr = rewritePrompt query doc') ∧
    (∃ out, (LLMRewriter.process r gen st contexts queries).1 = some out ∧
      get2 out q d = some doc) ∧
    ((q, d) ∉ mappingTitle tok queries contexts) ∧
    (∀ p ∈ (LLMRewriterWithTitle.process rt tok gen st contexts queries).2.2,
      ∀ pr ∈ p.2,
      ∃ (q' d' : Nat) (query doc' : String), queries[q']? = some query ∧
        get2 contexts q' d' = some doc' ∧ pyStrip doc' ≠ "" ∧
        pr = rewritePromptTitle query (split_title_content tok doc').1
          (split_title_content tok doc').2) ∧
    (∃ outT, (LLMRewriterWithTitle.process rt tok gen st contexts queries).1 =
      some outT ∧ get2 outT q d = some doc) := by
  obtain ⟨row, hrow, hd⟩ : ∃ row, contexts[q]? = some row ∧ row[d]? = some doc := by
    unfold get2 at hdoc
    rw [Option.bind_eq_some] at hdoc
    exact hdoc
  have hdlt : d < row.length := (List.getElem?_eq_some.mp hd).1
  have hlen0 : (pyStrip doc).length = 0 := by
    rw [hempty]
    decide
  have hnotinSep : (q, d) ∉ mappingSep queries contexts := by
    intro hmem
    obtain ⟨e, he, hem⟩ := List.mem_map.mp hmem
    obtain ⟨_, query, docs, doc', _, h3, h4, h5, _⟩ := buildPrompts_mem _ _ _ he
    simp only [Nat.sub_zero] at h3
    rw [hem] at h3 h4
    rw [hrow] at h3
    cases Option.some_inj.mp h3
    rw [hd] at h4
    cases Option.some_inj.mp h4
    exact h5 hlen0
  have hnotinTitle : (q, d) ∉ mappingTitle tok queries contexts := by
    intro hmem
    obtain ⟨e, he, hem⟩ := List.mem_map.mp hmem
    obtain ⟨_, query, docs, doc', _, h3, h4, h5, _, _⟩ :=
      buildPromptsTitle_mem tok _ _ _ he
    simp only [Nat.sub_zero] at h3
    rw [hem] at h3 h4
    rw [hrow] at h3
    cases Option.some_inj.mp h3
    rw [hd] at h4
    cases Option.some_inj.mp h4
    exact h5 hlen0
  obtain ⟨rc, hrec, hshape, heq⟩ := processSep_eq hg hb st contexts queries
  obtain ⟨rcT, hrecT, hshapeT, heqT⟩ := processTitle_eq hg hbt st contexts queries
  have hpass : get2 (fillSkipped contexts rc) q d = some doc := by
    have hframe : get2 rc q d =
        get2 (contexts.map (fun docs => List.replicate docs.length "")) q d :=
      reconstructLoop_frame contexts _ q d (mappingSep queries contexts) 0 _ rc
        hrec (fun m hm => fun hmeq => hnotinSep (hmeq ▸ hm))
    rw [acc0_get2 hrow hdlt] at hframe
    rw [fillSkipped_get2 hdoc hframe, if_pos rfl]
  have hpassT : get2 (fillSkipped contexts rcT) q d = some doc := by
    have hframe : get2 rcT q d =
        get2 (contexts.map (fun docs => List.replicate docs.length "")) q d :=
      reconstructLoop_frame contexts _ q d (mappingTitle tok queries contexts)
        0 _ rcT hrecT (fun m hm => fun hmeq => hnotinTitle (hmeq ▸ hm))
    rw [acc0_get2 hrow hdlt] at hframe
    rw [fillSkipped_get2 hdoc hframe, if_pos rfl]
  refine ⟨hnotinSep, ?_, ?_, hnotinTitle, ?_, ?_⟩
  · intro p hp pr hpr
    unfold LLMRewriter.process at hp
    rw [hsep] at hp
    simp only [if_true] at hp
    rw [processSep_trace] at hp
    obtain ⟨c, hc, rfl⟩ := List.mem_map.mp hp
    have hprall : pr ∈ allPromptsSep queries contexts := by
      rw [← chunksOf_flatten hb (allPromptsSep queries contexts)]
      exact List.mem_flatten.mpr ⟨c, hc, hpr⟩
    obtain ⟨e, he, hpe⟩ := List.mem_map.mp hprall
    obtain ⟨_, query, docs, doc', h2, h3, h4, h5, h6⟩ := buildPrompts_mem _ _ _ he
    simp only [Nat.sub_zero] at h2 h3
    refine ⟨e.2.1, e.2.2, query, doc', h2, ?_, ?_, by rw [← hpe, h6]⟩
    · unfold get2
      rw [h3, Option.some_bind]
      exact h4
    · intro hc0
      exact h5 (by rw [hc0]; rfl)
  · refine ⟨fillSkipped contexts rc, ?_, hpass⟩
    unfold LLMRewriter.process
    rw [hsep]
    simp only [if_true]
    rw [heq]
  · intro p hp pr hpr
    rw [processTitle_trace] at hp
    obtain ⟨c, hc, rfl⟩ := List.mem_map.mp hp
    have hprall : pr ∈ allPromptsTitle tok queries contexts := by
      rw [← chunksOf_flatten hbt (allPromptsTitle tok queries contexts)]
      exact List.mem_flatten.mpr ⟨c, hc, hpr⟩
    obtain ⟨e, he, hpe⟩ := List.mem_map.mp hprall
    obtain ⟨_, query, docs, doc', h2, h3, h4, h5, h6, _⟩ :=
      buildPromptsTitle_mem tok _ _ _ he
    simp only [Nat.sub_zero] at h2 h3
    refine ⟨e.2.1.1, e.2.1.2, query, doc', h2, ?_, ?_, by rw [← hpe, h6]⟩
    · unfold get2
      rw [h3, Option.some_bind]
      exact h4
    · intro hc0
      exact h5 (by rw [hc0]; rfl)
  · exact ⟨fillSkipped contexts rcT, by rw [heqT], hpassT⟩

/-- C7: in combined mode, a query whose generated text is non-empty after
trimming contributes a single-element output list (labelled originals plus
the rewritten text, or the rewritten text alone, per `concatenate_original`);
a query whose generated text trims to empty contributes its original document
list, not collapsed. -/
theorem C7_combined_collapse_or_fallback (r : Rewriter) (gen : Oracle)
    (st : GenState) (contexts : List (List String)) (queries : List String)
    (hg : GoodGen gen) (hb : 1 ≤ r.batch_size)
    (hsepF : r.process_separately = false)
    (hlen : queries.length = contexts.length) :
    ∃ out, (LLMRewriter.process r gen st contexts queries).1 = some out ∧
      out.length = queries.length ∧
      ∀ (q : Nat) (g : String),
        (rewrittenComb r gen queries contexts)[q]? = some g →
        (pyStrip g ≠ "" → ∃ docs, contexts[q]? = some docs ∧
          out[q]? = some (if r.concatenate_original then
            [originalCombined docs ++ "\n\nRefined version:\n" ++ g]
            else [g])) ∧
        (pyStrip g = "" → out[q]? = contexts[q]?) := by
  obtain ⟨rc, hrec, hrclen, heq⟩ := processComb_eq hg hb st contexts queries
  have houts : (rewrittenComb r gen queries contexts).length =
      queries.length := by
    unfold rewrittenComb
    rw [genLoop_fst_length hg hb, combinedPrompts_length, hlen, Nat.min_self]
  refine ⟨rc, ?_, by rw [hrclen, houts], ?_⟩
  · unfold LLMRewriter.process
    rw [hsepF]
    simp only [Bool.false_eq_true, if_false]
    rw [heq]
  · intro q g hq
    have hqlt : q < contexts.length := by
      have := (List.getElem?_eq_some.mp hq).1
      omega
    rcases reconstructComb_getElem contexts r.concatenate_original
        (rewrittenComb r gen queries contexts) 0 rc q g hrec hq with
      ⟨h1, h2, h3⟩ | ⟨h1, h2, docs, h3, h4⟩ | ⟨h1, docs, h3, h4⟩
    · constructor
      · intro _
        refine ⟨contexts[q], List.getElem?_eq_getElem hqlt, ?_⟩
        rw [h2, h3]
        simp
      · intro hgempty
        exact absurd ((string_length_eq_zero _).mpr hgempty) (by omega)
    · constructor
      · intro _
        rw [Nat.zero_add] at h3
        refine ⟨docs, h3, ?_⟩
        rw [h2, h4]
        simp
      · intro hgempty
        exact absurd ((string_length_eq_zero _).mpr hgempty) (by omega)
    · constructor
      · intro hgne
        exact absurd ((string_length_eq_zero _).mp h1) hgne
      · intro _
        rw [Nat.zero_add] at h3
        rw [h3, h4]

/-- C8 counterexample: the claim says the title split falls back to splitting
at the first `". "` also when segmentation finds no sentences; on the
document `"Alpha. Beta"` with a tokenizer returning zero sentences and a
collaborator returning `"X"`, the `". "` fallback would make the output cell
`"Alpha." ++ " " ++ "X"`, but the code returns title `""` and content
`"Alpha. Beta"`, producing `" X"`. -/
theorem C8_counterexample :
    (LLMRewriterWithTitle.process
      { batch_size := 1, max_new_tokens := 7, concatenate_original := false,
        name := "n" }
      (fun _ => Except.ok [])
      (fun ps => Except.ok (ps.map (fun _ => "X")))
      ⟨3⟩ [["Alpha. Beta"]] ["Q"]).1 = some [[" X"]] ∧
    some [[" X"]] ≠ some [["Alpha." ++ " " ++ "X"]] := by
  constructor
  · decide
  · decide

/-- C8 (amended): the title variant splits every non-empty document before
prompting via sentence segmentation — title = first sentence, content = the
space-join of the remaining sentences; when segmentation returns zero
sentences the title is empty and the content is the whole document, and only
when segmentation raises does it fall back to splitting at the first `". "`
(re-appending the `"."`).  When the generated content is non-empty after
trimming, the output cell is the original title, a space, and the trimmed
rewritten content, further concatenated with the original document per
`concatenate_original`. -/
theorem C8_title_split_and_compose (rt : TitleRewriter) (tok : SentTok)
    (gen : Oracle) (st : GenState) (contexts : List (List String))
    (queries : List String) (hg : GoodGen gen) (hbt : 1 ≤ rt.batch_size)
    (doc0 : String) :
    (∀ s rest, tok doc0 = Except.ok (s :: rest) →
      split_title_content tok doc0 = (s, joinSep " " rest)) ∧
    (tok doc0 = Except.ok [] → split_title_content tok doc0 = ("", doc0)) ∧
    (tok doc0 = Except.error () →
      split_title_content tok doc0 =
        (match splitFirst ['.', ' '] doc0.data with
          | some (a, b) => (String.mk a ++ ".", String.mk b)
          | none => ("", doc0))) ∧
    (∃ outT, (LLMRewriterWithTitle.process rt tok gen st contexts queries).1 =
      some outT ∧
      ∀ (k q d : Nat) (g : String),
        (mappingTitle tok queries contexts)[k]? = some (q, d) →
        (contentsTitle rt tok gen queries contexts)[k]? = some g →
        pyStrip g ≠ "" →
        ∃ doc, get2 contexts q d = some doc ∧
          get2 outT q d = some (if rt.concatenate_original then
            doc ++ "\n\nRefined version: " ++
              ((split_title_content tok doc).1 ++ " " ++ pyStrip g)
            else (split_title_content tok doc).1 ++ " " ++ pyStrip g)) := by
  refine ⟨?_, ?_, ?_, ?_⟩
  · intro s rest htok
    unfold split_title_content
    rw [htok]
  · intro htok
    unfold split_title_content
    rw [htok]
  · intro htok
    unfold split_title_content
    rw [htok]
  · obtain ⟨rcT, hrecT, hshapeT, heqT⟩ := processTitle_eq hg hbt st contexts queries
    refine ⟨fillSkipped contexts rcT, by rw [heqT], ?_⟩
    intro k q d g hk hcont hgne
    obtain ⟨query, docs, doc, hquery, hdocs, hdget, hdne, hprompt, htitle⟩ :=
      mappingTitle_getElem hk
    obtain ⟨row, orig, v, hrow, horig, hfv, hget⟩ :=
      reconstructLoop_get contexts _ (mappingTitle tok queries contexts) 0 _
        rcT k q d hrecT hk
        (mapping_later_ne (mappingTitle_pairwise tok queries contexts) hk)
    rw [hdocs] at hrow
    cases Option.some_inj.mp hrow
    rw [hdget] at horig
    cases Option.some_inj.mp horig
    simp only [Nat.zero_add] at hfv
    rw [hcont] at hfv
    simp only [Option.bind_eq_bind, Option.some_bind] at hfv
    rw [htitle] at hfv
    simp only [Option.some_bind] at hfv
    have hv : v = titleValue rt.concatenate_original doc
        (split_title_content tok doc).1 g := (Option.some_inj.mp hfv).symm
    have hc : get2 contexts q d = some doc := by
      unfold get2
      rw [hdocs, Option.some_bind]
      exact hdget
    have hglen : (pyStrip g).length ≠ 0 := by
      intro h0
      exact hgne ((string_length_eq_zero _).mp h0)
    have hcell := fillSkipped_get2 hc hget
    refine ⟨doc, hc, ?_⟩
    cases hco : rt.concatenate_original with
    | true =>
      rw [hco] at hv
      have hval : titleValue true doc (split_title_content tok doc).1 g =
          doc ++ "\n\nRefined version: " ++
            ((split_title_content tok doc).1 ++ " " ++ pyStrip g) := by
        simp only [titleValue]
        rw [if_neg hglen]
        simp
      rw [hval] at hv
      subst hv
      rw [hcell,
        if_neg (append_ne_empty_mid doc _ _ (by decide))]
      simp
    | false =>
      rw [hco] at hv
      have hval : titleValue false doc (split_title_content tok doc).1 g =
          (split_title_content tok doc).1 ++ " " ++ pyStrip g := by
        simp only [titleValue]
        rw [if_neg hglen]
        simp
      rw [hval] at hv
      subst hv
      rw [hcell,
        if_neg (append_ne_empty_mid _ _ _ (by decide))]
      simp

/-! ### Concrete fixtures used by the witnesses -/

def rSepFix : Rewriter :=
  { batch_size := 1, max_new_tokens := 7, process_separately := true,
    concatenate_original := true, name := "n" }

def rCombFix : Rewriter :=
  { batch_size := 2, max_new_tokens := 7, process_separately := false,
    concatenate_original := true, name := "n" }

def rtFix : TitleRewriter :=
  { batch_size := 1, max_new_tokens := 7, concatenate_original := true,
    name := "n" }

/-- A collaborator that raises on every batch. -/
def genErrFix : Oracle := fun _ => Except.error ()

/-- A pointwise collaborator returning `" X "` for every prompt. -/
def genMapFix : Oracle := fun ps => Except.ok (ps.map (fun _ => " X "))

def tokFix : SentTok := fun _ => Except.error ()

def stFix : GenState := ⟨3⟩

def ctxFix : List (List String) := [["Doc A", "", "Doc B"]]

def qsFix : List String := ["Q"]

theorem genErrFix_good : GoodGen genErrFix := fun _ _ h => nomatch h

theorem genMapFix_good : GoodGen genMapFix := fun ps out h => by
  unfold genMapFix at h
  cases h
  simp

/-! ### Witnesses -/

/-- Witness for C1 at a concrete input. -/
theorem C1_shape_preserved_witness :
    GoodGen genMapFix ∧ 1 ≤ rSepFix.batch_size ∧ 1 ≤ rtFix.batch_size ∧
    rSepFix.process_separately = true ∧ ctxFix.length = qsFix.length ∧
    ((∃ out, (LLMRewriter.process rSepFix genMapFix stFix ctxFix qsFix).1 =
        some out ∧ out.length = qsFix.length ∧
        out.map List.length = ctxFix.map List.length) ∧
     (∃ outT, (LLMRewriterWithTitle.process rtFix tokFix genMapFix stFix
        ctxFix qsFix).1 = some outT ∧ outT.length = qsFix.length ∧
        outT.map List.length = ctxFix.map List.length)) :=
  ⟨genMapFix_good, by decide, by decide, by decide, by decide,
    C1_shape_preserved rSepFix rtFix tokFix genMapFix stFix ctxFix qsFix
      genMapFix_good (by decide) (by decide) (by decide) (by decide)⟩

/-- Witness for C2 at a concrete input, with a collaborator that raises on
every batch: the call still returns a result and the state is restored. -/
theorem C2_max_new_tokens_scoped_witness :
    GoodGen genErrFix ∧ 1 ≤ rSepFix.batch_size ∧ 1 ≤ rtFix.batch_size ∧
    ((∃ out, (LLMRewriter.process rSepFix genErrFix stFix ctxFix qsFix).1 =
        some out) ∧
     (LLMRewriter.process rSepFix genErrFix stFix ctxFix qsFix).2.1 = stFix ∧
     (∀ p ∈ (LLMRewriter.process rSepFix genErrFix stFix ctxFix qsFix).2.2,
        p.1 = rSepFix.max_new_tokens) ∧
     (∃ outT, (LLMRewriterWithTitle.process rtFix tokFix genErrFix stFix
        ctxFix qsFix).1 = some outT) ∧
     (LLMRewriterWithTitle.process rtFix tokFix genErrFix stFix ctxFix
        qsFix).2.1 = stFix ∧
     (∀ p ∈ (LLMRewriterWithTitle.process rtFix tokFix genErrFix stFix
        ctxFix qsFix).2.2, p.1 = rtFix.max_new_tokens)) :=
  ⟨genErrFix_good, by decide, by decide,
    C2_max_new_tokens_scoped rSepFix rtFix tokFix genErrFix stFix ctxFix
      qsFix genErrFix_good (by decide) (by decide)⟩

/-- Witness for C3 at a concrete input with an always-raising collaborator. -/
theorem C3_empty_or_failed_falls_back_witness :
    GoodGen genErrFix ∧ 1 ≤ rSepFix.batch_size ∧
    rSepFix.process_separately = true ∧
    (∃ out, (LLMRewriter.process rSepFix genErrFix stFix ctxFix qsFix).1 =
      some out ∧
      (((LLMRewriter.process rSepFix genErrFix stFix ctxFix qsFix).2.2).map
        Prod.snd) = chunksOf rSepFix.batch_size (allPromptsSep qsFix ctxFix) ∧
      (∀ (k q d : Nat) (g : String),
        (mappingSep qsFix ctxFix)[k]? = some (q, d) →
        (passagesSep rSepFix genErrFix qsFix ctxFix)[k]? = some g →
        pyStrip g = "" →
        get2 out q d = get2 ctxFix q d) ∧
      (∀ (k q d : Nat),
        (mappingSep qsFix ctxFix)[k]? = some (q, d) →
        genErrFix (((allPromptsSep qsFix ctxFix).drop
          (rSepFix.batch_size * (k / rSepFix.batch_size))).take
            rSepFix.batch_size) = Except.error () →
        get2 out q d = get2 ctxFix q d)) :=
  ⟨genErrFix_good, by decide, by decide,
    C3_empty_or_failed_falls_back rSepFix genErrFix stFix ctxFix qsFix
      genErrFix_good (by decide) (by decide)⟩

/-- Witness for C4 at a concrete input. -/
theorem C4_concatenate_or_replace_witness :
    GoodGen genMapFix ∧ 1 ≤ rSepFix.batch_size ∧
    rSepFix.process_separately = true ∧
    (∃ out, (LLMRewriter.process rSepFix genMapFix stFix ctxFix qsFix).1 =
      some out ∧
      ∀ (k q d : Nat) (g : String),
        (mappingSep qsFix ctxFix)[k]? = some (q, d) →
        (passagesSep rSepFix genMapFix qsFix ctxFix)[k]? = some g →
        pyStrip g ≠ "" →
        ∃ doc, get2 ctxFix q d = some doc ∧
          get2 out q d = some (if rSepFix.concatenate_original then
            doc ++ "\n\nRefined version: " ++ pyStrip g else pyStrip g)) :=
  ⟨genMapFix_good, by decide, by decide,
    C4_concatenate_or_replace rSepFix genMapFix stFix ctxFix qsFix
      genMapFix_good (by decide) (by decide)⟩

/-- Witness for C5 at a concrete input. -/
theorem C5_batching_witness :
    1 ≤ rSepFix.batch_size ∧ rSepFix.process_separately = true ∧
    (((LLMRewriter.process rSepFix genMapFix stFix ctxFix qsFix).2.2).length =
      ceilDiv (allPromptsSep qsFix ctxFix).length rSepFix.batch_size ∧
    (((LLMRewriter.process rSepFix genMapFix stFix ctxFix qsFix).2.2).map
      Prod.snd).flatten = allPromptsSep qsFix ctxFix ∧
    (∀ p ∈ (LLMRewriter.process rSepFix genMapFix stFix ctxFix qsFix).2.2,
      p.2.length ≤ rSepFix.batch_size) ∧
    (∀ f : String → String, (∀ ps, genMapFix ps = Except.ok (ps.map f)) →
      passagesSep rSepFix genMapFix qsFix ctxFix =
        (allPromptsSep qsFix ctxFix).map f)) :=
  ⟨by decide, by decide,
    C5_batching rSepFix genMapFix stFix ctxFix qsFix (by decide) (by decide)⟩

/-- Witness for C6 at a concrete input: the empty document at position
`(0, 1)`. -/
theorem C6_empty_docs_passed_through_witness :
    GoodGen genMapFix ∧ 1 ≤ rSepFix.batch_size ∧ 1 ≤ rtFix.batch_size ∧
    rSepFix.process_separately = true ∧ get2 ctxFix 0 1 = some "" ∧
    pyStrip "" = "" ∧
    (((0, 1) ∉ mappingSep qsFix ctxFix) ∧
    (∀ p ∈ (LLMRewriter.process rSepFix genMapFix stFix ctxFix qsFix).2.2,
      ∀ pr ∈ p.2,
      ∃ (q' d' : Nat) (query doc' : String), qsFix[q']? = some query ∧
        get2 ctxFix q' d' = some doc' ∧ pyStrip doc' ≠ "" ∧
        pr = rewritePrompt query doc') ∧
    (∃ out, (LLMRewriter.process rSepFix genMapFix stFix ctxFix qsFix).1 =
      some out ∧ get2 out 0 1 = some "") ∧
    ((0, 1) ∉ mappingTitle tokFix qsFix ctxFix) ∧
    (∀ p ∈ (LLMRewriterWithTitle.process rtFix tokFix genMapFix stFix ctxFix
        qsFix).2.2, ∀ pr ∈ p.2,
      ∃ (q' d' : Nat) (query doc' : String), qsFix[q']? = some query ∧
        get2 ctxFix q' d' = some doc' ∧ pyStrip doc' ≠ "" ∧
        pr = rewritePromptTitle query (split_title_content tokFix doc').1
          (split_title_content tokFix doc').2) ∧
    (∃ outT, (LLMRewriterWithTitle.process rtFix tokFix genMapFix stFix
      ctxFix qsFix).1 = some outT ∧ get2 outT 0 1 = some "")) :=
  ⟨genMapFix_good, by decide, by decide, by decide, by decide, by decide,
    C6_empty_docs_passed_through rSepFix rtFix tokFix genMapFix stFix ctxFix
      qsFix genMapFix_good (by decide) (by decide) (by decide) 0 1 ""
      (by decide) (by decide)⟩

/-- Witness for C7 at a concrete input in combined mode. -/
theorem C7_combined_collapse_or_fallback_witness :
    GoodGen genMapFix ∧ 1 ≤ rCombFix.batch_size ∧
    rCombFix.process_separately = false ∧ qsFix.length = ctxFix.length ∧
    (∃ out, (LLMRewriter.process rCombFix genMapFix stFix ctxFix qsFix).1 =
      some out ∧ out.length = qsFix.length ∧
      ∀ (q : Nat) (g : String),
        (rewrittenComb rCombFix genMapFix qsFix ctxFix)[q]? = some g →
        (pyStrip g ≠ "" → ∃ docs, ctxFix[q]? = some docs ∧
          out[q]? = some (if rCombFix.concatenate_original then
            [originalCombined docs ++ "\n\nRefined version:\n" ++ g]
            else [g])) ∧
        (pyStrip g = "" → out[q]? = ctxFix[q]?)) :=
  ⟨genMapFix_good, by decide, by decide, by decide,
    C7_combined_collapse_or_fallback rCombFix genMapFix stFix ctxFix qsFix
      genMapFix_good (by decide) (by decide) (by decide)⟩

/-- Witness for the amended C8 at a concrete input. -/
theorem C8_title_split_and_compose_witness :
    GoodGen genMapFix ∧ 1 ≤ rtFix.batch_size ∧
    ((∀ s rest, tokFix "Alpha. Beta" = Except.ok (s :: rest) →
      split_title_content tokFix "Alpha. Beta" = (s, joinSep " " rest)) ∧
    (tokFix "Alpha. Beta" = Except.ok [] →
      split_title_content tokFix "Alpha. Beta" = ("", "Alpha. Beta")) ∧
    (tokFix "Alpha. Beta" = Except.error () →
      split_title_content tokFix "Alpha. Beta" =
        (match splitFirst ['.', ' '] "Alpha. Beta".data with
          | some (a, b) => (String.mk a ++ ".", String.mk b)
          | none => ("", "Alpha. Beta"))) ∧
    (∃ outT, (LLMRewriterWithTitle.process rtFix tokFix genMapFix stFix
      ctxFix qsFix).1 = some outT ∧
      ∀ (k q d : Nat) (g : String),
        (mappingTitle tokFix qsFix ctxFix)[k]? = some (q, d) →
        (contentsTitle rtFix tokFix genMapFix qsFix ctxFix)[k]? = some g →
        pyStrip g ≠ "" →
        ∃ doc, get2 ctxFix q d = some doc ∧
          get2 outT q d = some (if rtFix.concatenate_original then
            doc ++ "\n\nRefined version: " ++
              ((split_title_content tokFix doc).1 ++ " " ++ pyStrip g)
            else (split_title_content tokFix doc).1 ++ " " ++ pyStrip g))) :=
  ⟨genMapFix_good, by decide,
    C8_title_split_and_compose rtFix tokFix genMapFix stFix ctxFix qsFix
      genMapFix_good (by decide) "Alpha. Beta"⟩

/-- Witness for C10 at a concrete input: one query whose documents are all
empty or whitespace-only. -/
theorem C10_combined_prompt_per_query_witness :
    1 ≤ rCombFix.batch_size ∧ rCombFix.process_separately = false ∧
    qsFix.length = ([["", "  "]] : List (List String)).length ∧
    ((((LLMRewriter.process rCombFix genMapFix stFix [["", "  "]]
        qsFix).2.2).map Prod.snd).flatten =
      combinedPrompts qsFix [["", "  "]] ∧
    (combinedPrompts qsFix [["", "  "]]).length = qsFix.length ∧
    (∀ (q : Nat) (query : String) (docs : List String),
      qsFix[q]? = some query → ([["", "  "]] : List (List String))[q]? = some docs →
      (combinedPrompts qsFix [["", "  "]])[q]? =
        some (rewritePrompt query (combinedPassage docs))) ∧
    (∀ docs : List String, (∀ doc ∈ docs, pyStrip doc = "") →
      combinedPassage docs = "") ∧
    (∀ docs : List String, (combinedPassageParts docs 0).length =
      (docs.filter (fun doc => !((pyStrip doc).length == 0))).length)) :=
  ⟨by decide, by decide, by decide,
    C10_combined_prompt_per_query rCombFix genMapFix stFix [["", "  "]] qsFix
      (by decide) (by decide) (by decide)⟩

end MrRag
